import Mathlib

/-!
# ffmpeg-go: the audio + images → video pipeline

A shallow embedding of `getAudioDuration` and `createVideoFromAudioAndImages`
(`src/ffmpeg-go/main.go`) together with the properties stated about them.

Modelling conventions.

* Go `string` is `String`; Go `error` is `Option String` (`none` is `nil`, `some m`
  is an error whose `Error()` text is `m`); a Go result `(T, error)` is `Except String T`.
* Go `float64` is `Float64` below: a finite value is the rational it denotes, next to the
  two infinities and NaN.  Every operation rounds its exact result to the nearest binary64
  value, ties to even (`Float64.round`); only the sign of zero is not modelled.  Go `int`
  is the 64-bit range of `Int`: a conversion from `float64` that leaves the range yields
  what the platform decides.
* The file system is a map from paths to contents.  The three external programs and the
  fallible system calls are outcomes supplied by an `Env`; a program run only changes the
  file it is asked to write, and `os.Remove` unlinks its path.  Every interaction is also
  recorded as an `Event`, in the order of the run.
-/

namespace FfmpegGo

/-! ## float64 -/

/-- Go `float64`: a finite value (the rational it denotes), an infinity, or NaN. -/
inductive Float64 where
  | fin (q : ℚ)
  | inf (neg : Bool)
  | nan
  deriving DecidableEq

/-- The loop of `floorLog2`: halve `n` until it is below 2, counting the steps. -/
def log2Fuel : Nat → Nat → Nat
  | 0, _ => 0
  | fuel + 1, n => if n < 2 then 0 else log2Fuel fuel (n / 2) + 1

/-- The position of the leading bit of `n ≥ 1`: `2 ^ floorLog2 n ≤ n < 2 ^ (floorLog2 n + 1)`. -/
def floorLog2 (n : Nat) : Nat := log2Fuel n n

/-- The binary exponent of a positive rational: `2 ^ ilog2 a ≤ a < 2 ^ (ilog2 a + 1)`. -/
def ilog2 (a : ℚ) : Int :=
  let e0 : Int := (floorLog2 a.num.natAbs : Int) - (floorLog2 a.den : Int)
  if (2 : ℚ) ^ e0 ≤ a then e0 else e0 - 1

/-- The integer nearest to `m ≥ 0`, a tie going to the even one. -/
def roundHalfEven (m : ℚ) : Int :=
  let n := ⌊m⌋
  let r := m - n
  if r < 1 / 2 then n else if 1 / 2 < r then n + 1 else if n % 2 = 0 then n else n + 1

/-- The least magnitude that rounds (to nearest, ties to even) beyond the largest finite
`float64`: `2^1024 - 2^970`. -/
def overflowBound : ℚ := 2 ^ 1024 - 2 ^ 970

namespace Float64

/-- IEEE 754 rounding of an exact result to binary64, to nearest with ties to even: the
result is a multiple of `2 ^ qe`, where `qe` leaves 53 significant bits and is at least
`-1074` (subnormal numbers, underflow to zero); a magnitude of `overflowBound` or more
becomes an infinity. -/
def round (x : ℚ) : Float64 :=
  if x = 0 then fin 0
  else if overflowBound ≤ |x| then inf (decide (x < 0))
  else
    let qe : Int := max (ilog2 |x| - 52) (-1074)
    let n := roundHalfEven (|x| / 2 ^ qe)
    fin ((if x < 0 then -1 else 1) * n * 2 ^ qe)

/-- Conversion `float64(n)` of a slice length (exact: a length is below `2^53`). -/
def ofNat (n : Nat) : Float64 := fin n

/-- The operator `/` on `float64`. -/
def div : Float64 → Float64 → Float64
  | nan, _ => nan
  | _, nan => nan
  | inf _, inf _ => nan
  | inf s, fin b => inf (s != decide (b < 0))
  | fin _, inf _ => fin 0
  | fin a, fin b =>
    if b = 0 then (if a = 0 then nan else inf (decide (a < 0)))
    else round (a / b)

/-- The operator `*` on `float64`. -/
def mul : Float64 → Float64 → Float64
  | nan, _ => nan
  | _, nan => nan
  | inf s, inf t => inf (s != t)
  | inf s, fin b => if b = 0 then nan else inf (s != decide (b < 0))
  | fin a, inf t => if a = 0 then nan else inf (decide (a < 0) != t)
  | fin a, fin b => round (a * b)

/-- Truncation of a rational toward zero. -/
def truncQ (q : ℚ) : Int := Int.tdiv q.num q.den

/-- The conversion `int(x)` to the 64-bit `int`: the fractional part of a finite value is
discarded (truncation toward zero).  When the result does not fit in 64 bits, and for NaN
and the infinities, Go leaves the result to the implementation; it is the parameter
`impl` (on amd64 it is `-9223372036854775808` throughout). -/
def toInt (impl : Float64 → Int) : Float64 → Int
  | fin q =>
    if -9223372036854775808 ≤ truncQ q ∧ truncQ q ≤ 9223372036854775807 then truncQ q
    else impl (fin q)
  | x => impl x

end Float64

/-! ## strings.TrimSpace -/

/-- Go `unicode.IsSpace`. -/
def isSpace (c : Char) : Bool :=
  let n := c.toNat
  n == 0x09 || n == 0x0A || n == 0x0B || n == 0x0C || n == 0x0D || n == 0x20 ||
  n == 0x85 || n == 0xA0 || n == 0x1680 || (0x2000 ≤ n && n ≤ 0x200A) ||
  n == 0x2028 || n == 0x2029 || n == 0x202F || n == 0x205F || n == 0x3000

/-- Go `strings.TrimSpace`: leading and trailing white space removed. -/
def trimSpace (s : String) : String :=
  String.mk ((s.toList.dropWhile isSpace).reverse.dropWhile isSpace).reverse

/-! ## strconv.ParseFloat -/

/-- The two failure kinds of `strconv.ParseFloat`. -/
inductive NumErr where
  | ErrSyntax
  | ErrRange
  deriving DecidableEq

/-- Go `lower(c) = c | ('x' - 'X')`. -/
def lower (c : Char) : Char := Char.ofNat (c.toNat ||| 0x20)

/-- Whether `c` is one of `'0'..'9'`. -/
def isDigit (c : Char) : Bool := decide ('0' ≤ c) && decide (c ≤ '9')

/-- Whether `lower c` is one of `'a'..'f'`. -/
def isHexLetter (c : Char) : Bool := decide ('a' ≤ lower c) && decide (lower c ≤ 'f')

/-- Go `commonPrefixLenIgnoreCase(s, pre)`, `pre` in lower case. -/
def commonPrefixLenIgnoreCase : List Char → List Char → Nat
  | c :: s, p :: pre =>
    let c := if 'A' ≤ c ∧ c ≤ 'Z' then Char.ofNat (c.toNat + 32) else c
    if c = p then 1 + commonPrefixLenIgnoreCase s pre else 0
  | _, _ => 0

/-- The length of an `inf`/`infinity` match: what is longer than `inf` but not all of
`infinity` counts as `inf`. -/
def infLen (s : List Char) : Nat :=
  let n := commonPrefixLenIgnoreCase s "infinity".toList
  if 3 < n ∧ n < 8 then 3 else n

/-- Go `special`: a possibly signed `inf`/`infinity`, or `nan`, at the start of `s`, with
the number of characters it takes. -/
def special (s : List Char) : Option (Float64 × Nat) :=
  match s with
  | [] => none
  | c :: rest =>
    if c = '+' ∨ c = '-' then
      let n := infLen rest
      if n = 3 ∨ n = 8 then some (Float64.inf (c == '-'), 1 + n) else none
    else if c = 'i' ∨ c = 'I' then
      let n := infLen s
      if n = 3 ∨ n = 8 then some (Float64.inf false, n) else none
    else if c = 'n' ∨ c = 'N' then
      if commonPrefixLenIgnoreCase s "nan".toList = 3 then some (Float64.nan, 3) else none
    else none

/-- The variables of the digit loop of `readFloat`.  `mant` collects every significant
digit: Go keeps the first 19 (16 in base 16) in a `uint64` and accounts for the rest when it
rounds, so the value parsed is that of the full digit string. -/
structure Scan where
  mant : Nat := 0
  nd : Nat := 0
  dp : Int := 0
  sawdot : Bool := false
  sawdigits : Bool := false
  underscores : Bool := false

/-- The digit loop of `readFloat`: returns the variables and the unread rest. -/
def readDigits (base : Nat) : List Char → Scan → Scan × List Char
  | [], st => (st, [])
  | c :: cs, st =>
    if c = '_' then readDigits base cs { st with underscores := true }
    else if c = '.' then
      if st.sawdot then (st, c :: cs)
      else readDigits base cs { st with sawdot := true, dp := st.nd }
    else if isDigit c then
      if c = '0' ∧ st.nd = 0 then
        readDigits base cs { st with sawdigits := true, dp := st.dp - 1 }
      else
        readDigits base cs
          { st with sawdigits := true, nd := st.nd + 1,
                    mant := st.mant * base + (c.toNat - '0'.toNat) }
    else if base = 16 ∧ isHexLetter c then
      readDigits base cs
        { st with sawdigits := true, nd := st.nd + 1,
                  mant := st.mant * 16 + ((lower c).toNat - 'a'.toNat + 10) }
    else (st, c :: cs)

/-- The exponent digit loop of `readFloat`: the exponent stops growing once it reaches
10000. -/
def readExpDigits : List Char → Nat → Bool → Nat × Bool × List Char
  | [], e, u => (e, u, [])
  | c :: cs, e, u =>
    if isDigit c then
      readExpDigits cs (if e < 10000 then e * 10 + (c.toNat - '0'.toNat) else e) u
    else if c = '_' then readExpDigits cs e true
    else (e, u, c :: cs)

/-- The scan state of `underscoreOK`. -/
inductive Saw where
  | start
  | digit
  | underscore
  | other
  deriving DecidableEq

/-- The main loop of `underscoreOK`. -/
def underscoreLoop (hex : Bool) : List Char → Saw → Bool
  | [], saw => saw != Saw.underscore
  | c :: cs, saw =>
    if isDigit c || (hex && isHexLetter c) then underscoreLoop hex cs Saw.digit
    else if c = '_' then
      if saw != Saw.digit then false else underscoreLoop hex cs Saw.underscore
    else if saw == Saw.underscore then false
    else underscoreLoop hex cs Saw.other

/-- Go `underscoreOK`: underscores only between digits or between a base prefix and a
digit. -/
def underscoreOK (s : List Char) : Bool :=
  let s := match s with
    | c :: cs => if c = '-' ∨ c = '+' then cs else s
    | [] => s
  match s with
  | c0 :: c1 :: cs =>
    if c0 = '0' ∧ (lower c1 = 'b' ∨ lower c1 = 'o' ∨ lower c1 = 'x') then
      underscoreLoop (lower c1 == 'x') cs Saw.digit
    else underscoreLoop false s Saw.start
  | _ => underscoreLoop false s Saw.start

/-- What `readFloat` returns when it succeeds. -/
structure Parsed where
  neg : Bool
  hex : Bool
  mant : Nat
  exp : Int
  consumed : Nat

/-- Go `readFloat`: sign, digits with an optional point, optional exponent (mandatory for
base 16).  `none` is `ok = false`. -/
def readFloat (s : List Char) : Option Parsed :=
  match s with
  | [] => none
  | c :: cs =>
    let neg := c == '-'
    let s1 := if c = '+' ∨ c = '-' then cs else s
    let hex := match s1 with
      | c0 :: c1 :: _ :: _ => c0 == '0' && lower c1 == 'x'
      | _ => false
    let base := if hex then 16 else 10
    let s2 := if hex then s1.drop 2 else s1
    let (st, s3) := readDigits base s2 {}
    if !st.sawdigits then none else
    let dp : Int := if st.sawdot then st.dp else st.nd
    let dp : Int := if hex then dp * 4 else dp
    let ndMant : Int := if hex then st.nd * 4 else st.nd
    let expChar := if hex then 'p' else 'e'
    let finish (dp : Int) (underscores : Bool) (rest : List Char) : Option Parsed :=
      let consumed := s.length - rest.length
      if underscores && !underscoreOK (s.take consumed) then none
      else some { neg := neg, hex := hex, mant := st.mant,
                  exp := if st.mant ≠ 0 then dp - ndMant else 0, consumed := consumed }
    match s3 with
    | e :: s4 =>
      if lower e = expChar then
        match s4 with
        | [] => none
        | sg :: s5 =>
          let esign : Int := if sg = '-' then -1 else 1
          let s6 := if sg = '+' ∨ sg = '-' then s5 else s4
          match s6 with
          | [] => none
          | d :: _ =>
            if !isDigit d then none else
            let (ev, u, s7) := readExpDigits s6 0 st.underscores
            finish (dp + ev * esign) u s7
      else if hex then none
      else finish dp st.underscores s3
    | [] => if hex then none else finish dp st.underscores s3

/-- The value denoted by a parsed literal: `mant * 2^exp` in base 16, `mant * 10^exp` in
base 10, with its sign. -/
def Parsed.value (p : Parsed) : ℚ :=
  let b : ℚ := if p.hex then 2 else 10
  let m : ℚ := (p.mant : ℚ) * b ^ p.exp
  if p.neg then -m else m

/-- Go `strconv.ParseFloat(s, 64)` with the kind of its error: a special value, or a
literal read by `readFloat`, whose value is rounded to the nearest `float64`; the whole
string must be used, and a magnitude that rounds out of range is `ErrRange`. -/
def parseFloat (s : String) : Except NumErr Float64 :=
  let cs := s.toList
  match special cs with
  | some (v, n) => if n ≠ cs.length then .error .ErrSyntax else .ok v
  | none =>
    match readFloat cs with
    | none => .error .ErrSyntax
    | some p =>
      if p.consumed ≠ cs.length then .error .ErrSyntax
      else if overflowBound ≤ |p.value| then .error .ErrRange
      else .ok (Float64.round p.value)

/-! ## The world outside the program -/

/-- The file system: the contents of every path that exists. -/
abbrev FS := String → Option String

/-- The file system after `path` was given the contents `text`. -/
def FS.put (fs : FS) (path text : String) : FS :=
  fun p => if p = path then some text else fs p

/-- The file system after `path` was unlinked. -/
def FS.del (fs : FS) (path : String) : FS :=
  fun p => if p = path then none else fs p

/-- How a run of `ffmpeg` ends: exit status 0 with its output file written, or a failure
with the text of the error and whatever it left at the output path (`none`: the path was
not touched). -/
inductive RunOutcome where
  | ok (content : String)
  | fail (err : String) (leftover : Option String)

/-- How a `file.WriteString` ends: everything written, or an error after the first
`written` characters. -/
inductive WriteOutcome where
  | ok
  | fail (written : Nat) (err : String)

/-- One interaction with the world: an external program started, or a file created,
written or removed.  A program is recorded with the arguments that vary (the fixed flags
are left out; `t` and `frames` are the values the `-t` and `d=` arguments are printed
from); `concatMux` also records the manifest text the program finds. -/
inductive Event where
  | probe (audioPath : String)
  | encode (imagePath : String) (t : Float64) (frames : Int) (segmentPath : String)
  | create (path : String)
  | write (path : String) (text : String)
  | concatMux (concatFile : String) (manifest : Option String) (audioPath outputPath : String)
  | remove (path : String)
  deriving DecidableEq

/-- Everything the program does not decide itself. -/
structure Env where
  /-- `cmd.Output()` of `ffprobe` on an audio path: standard output on exit status 0,
  otherwise the text of the error. -/
  ffprobe : String → Except String String
  /-- `zoomCmd.Run()` for the image at an index. -/
  zoomRun : Nat → RunOutcome
  /-- `os.Create(videoConcatFile)`: `none` on success. -/
  osCreate : Option String
  /-- The `file.WriteString` call for the entry at an index. -/
  writeString : Nat → WriteOutcome
  /-- `finalCmd.CombinedOutput()`: the captured output, and how the run ended. -/
  finalRun : String × RunOutcome
  /-- `strconv.Quote`, which appears in the text of a `ParseFloat` error. -/
  quote : String → String
  /-- The `int` this platform converts a `float64` to that has no 64-bit integer part. -/
  intOutOfRange : Float64 → Int

/-- A step of the program: its value, the file system it leaves, the events it caused. -/
structure Step (α : Type) where
  val : α
  fs : FS
  events : List Event

/-- Go `os.Remove(path)`, its error ignored. -/
def osRemove (path : String) (fs : FS) : FS × List Event :=
  (fs.del path, [Event.remove path])

/-- The loop `for _, segment := range videoSegments { os.Remove(segment) }`. -/
def removeSegments : List String → FS → FS × List Event
  | [], fs => (fs, [])
  | segment :: rest, fs =>
    let r := removeSegments rest (fs.del segment)
    (r.1, Event.remove segment :: r.2)

/-- The text of a `*strconv.NumError` of `ParseFloat`. -/
def numErrorText (env : Env) (s : String) : NumErr → String
  | .ErrSyntax => "strconv.ParseFloat: parsing " ++ env.quote s ++ ": invalid syntax"
  | .ErrRange => "strconv.ParseFloat: parsing " ++ env.quote s ++ ": value out of range"

/-! ## getAudioDuration -/

/-- Go `getAudioDuration` (lines 66-86). -/
def getAudioDuration (env : Env) (audioPath : String) (fs : FS) :
    Step (Except String Float64) :=
  match env.ffprobe audioPath with
  | .error err =>
    ⟨.error ("failed to get audio duration: " ++ err), fs, [Event.probe audioPath]⟩
  | .ok output =>
    let durationStr := trimSpace output
    match parseFloat durationStr with
    | .error err =>
      ⟨.error ("failed to parse duration: " ++ numErrorText env durationStr err), fs,
        [Event.probe audioPath]⟩
    | .ok duration => ⟨.ok duration, fs, [Event.probe audioPath]⟩

/-! ## createVideoFromAudioAndImages -/

/-- The name of the segment file for the image at index `i` (line 107). -/
def segmentPath (i : Nat) : String := "/tmp/segment_" ++ toString i ++ ".mp4"

/-- The name of the manifest (line 138). -/
def videoConcatFile : String := "/tmp/video_concat.txt"

/-- The manifest entry for one segment (line 148). -/
def concatLine (segment : String) : String := "file '" ++ segment ++ "'\n"

/-- The effect of an `ffmpeg` run on its output path. -/
def RunOutcome.apply (r : RunOutcome) (path : String) (fs : FS) : FS :=
  match r with
  | .ok content => fs.put path content
  | .fail _ (some content) => fs.put path content
  | .fail _ none => fs

/-- The loop of lines 106-135 from index `i` on, `videoSegments` holding the names
appended so far: either the error of the first failing encode, after the segments named
so far were removed, or all the segment names. -/
def segmentLoop (env : Env) (durationPerImage : Float64) (framesPerImage : Int) :
    List String → Nat → List String → FS → Step (Except String (List String))
  | [], _, videoSegments, fs => ⟨.ok videoSegments, fs, []⟩
  | imagePath :: rest, i, videoSegments, fs =>
    let videoSegments := videoSegments ++ [segmentPath i]
    let ev := Event.encode imagePath durationPerImage framesPerImage (segmentPath i)
    let fs := (env.zoomRun i).apply (segmentPath i) fs
    match env.zoomRun i with
    | .fail err _ =>
      let r := removeSegments videoSegments fs
      ⟨.error ("error creating video segment " ++ toString i ++ ": " ++ err), r.1,
        ev :: r.2⟩
    | .ok _ =>
      let r := segmentLoop env durationPerImage framesPerImage rest (i + 1) videoSegments fs
      ⟨r.val, r.fs, ev :: r.events⟩

/-- The loop of lines 147-152 from entry `k` on: `none` when every entry was written,
otherwise the error of the first failing write. -/
def writeLoop (env : Env) : List String → Nat → FS → Step (Option String)
  | [], _, fs => ⟨none, fs, []⟩
  | segment :: rest, k, fs =>
    let text := concatLine segment
    let old := (fs videoConcatFile).getD ""
    match env.writeString k with
    | .fail written err =>
      ⟨some err, fs.put videoConcatFile (old ++ String.mk (text.toList.take written)),
        [Event.write videoConcatFile text]⟩
    | .ok =>
      let r := writeLoop env rest (k + 1) (fs.put videoConcatFile (old ++ text))
      ⟨r.val, r.fs, Event.write videoConcatFile text :: r.events⟩

/-- Lines 146-181: what runs between the two `defer` statements and the return. -/
def writeAndMerge (env : Env) (audioPath outputPath : String) (videoSegments : List String)
    (fs : FS) : Step (Option String) :=
  let wr := writeLoop env videoSegments 0 fs
  match wr.val with
  | some err => ⟨some err, wr.fs, wr.events⟩
  | none =>
    let ev := Event.concatMux videoConcatFile (wr.fs videoConcatFile) audioPath outputPath
    let fs := env.finalRun.2.apply outputPath wr.fs
    let r := removeSegments videoSegments fs
    match env.finalRun.2 with
    | .fail err _ =>
      ⟨some ("ffmpeg final merge error: " ++ err ++ ", output: " ++ env.finalRun.1), r.1,
        wr.events ++ ev :: r.2⟩
    | .ok _ => ⟨none, r.1, wr.events ++ ev :: r.2⟩

/-- Go `createVideoFromAudioAndImages` (lines 88-182).  The deferred
`os.Remove(videoConcatFile)` runs on every return after `os.Create` succeeded; the
deferred `file.Close()` changes nothing that is modelled. -/
def createVideoFromAudioAndImages (env : Env) (audioPath : String) (imagePaths : List String)
    (outputPath : String) (fs : FS) : Step (Option String) :=
  if imagePaths.length = 0 then ⟨some "no images provided", fs, []⟩
  else
    let pr := getAudioDuration env audioPath fs
    match pr.val with
    | .error err => ⟨some ("error getting audio duration: " ++ err), pr.fs, pr.events⟩
    | .ok audioDuration =>
      let durationPerImage := audioDuration.div (Float64.ofNat imagePaths.length)
      let framesPerImage := (durationPerImage.mul (Float64.fin 30)).toInt env.intOutOfRange
      let sg := segmentLoop env durationPerImage framesPerImage imagePaths 0 [] pr.fs
      match sg.val with
      | .error err => ⟨some err, sg.fs, pr.events ++ sg.events⟩
      | .ok videoSegments =>
        match env.osCreate with
        | some err =>
          ⟨some err, sg.fs, pr.events ++ sg.events ++ [Event.create videoConcatFile]⟩
        | none =>
          let fs := sg.fs.put videoConcatFile ""
          let body := writeAndMerge env audioPath outputPath videoSegments fs
          let rm := osRemove videoConcatFile body.fs
          ⟨body.val, rm.1,
            pr.events ++ sg.events ++ [Event.create videoConcatFile] ++ body.events ++ rm.2⟩

/-! ## Vocabulary of the properties -/

/-- Whether an event is the start of a segment encode. -/
def Event.isEncode : Event → Bool
  | .encode _ _ _ _ => true
  | _ => false

/-- Whether an event is a write to a file. -/
def Event.isWrite : Event → Bool
  | .write _ _ => true
  | _ => false

/-- Whether an event belongs to the manifest and merge stages: the manifest created or
written, or the concat/mux program started. -/
def Event.isManifestOrMerge : Event → Bool
  | .create _ => true
  | .write _ _ => true
  | .concatMux _ _ _ _ => true
  | _ => false

deriving instance DecidableEq for Except

/-- The empty file system. -/
def noFiles : FS := fun _ => none

/-- A world in which everything succeeds; the probe prints `9.000000`. -/
def envOk : Env where
  ffprobe := fun _ => .ok "9.000000\n"
  zoomRun := fun _ => .ok "video"
  osCreate := none
  writeString := fun _ => .ok
  finalRun := ("", .ok "movie")
  quote := fun s => "\"" ++ s ++ "\""
  intOutOfRange := fun _ => -9223372036854775808

/-- As `envOk`, but the encode of the image at index 1 fails and leaves a partial file. -/
def envEncodeFails : Env :=
  { envOk with
    zoomRun := fun i => if i = 1 then .fail "exit status 1" (some "junk") else .ok "video" }

/-- As `envOk`, but the concat/mux run fails. -/
def envMergeFails : Env :=
  { envOk with finalRun := ("Invalid data found", .fail "exit status 1" none) }

/-- As `envOk`, but the manifest cannot be created. -/
def envCreateFails : Env :=
  { envOk with osCreate := some "open /tmp/video_concat.txt: permission denied" }

/-- As `envOk`, but the write of the second manifest entry fails. -/
def envWriteFails : Env :=
  { envOk with
    writeString := fun k =>
      if k = 1 then .fail 0 "write /tmp/video_concat.txt: no space left on device" else .ok }

/-- As `envOk`, but the probe prints `out`. -/
def envProbe (out : String) : Env :=
  { envOk with ffprobe := fun _ => .ok out }

/-- The temporary file an event names: the output of an encode, a file created, written
or removed, the manifest handed to the concat/mux program. -/
def Event.tempPath : Event → Option String
  | .probe _ => none
  | .encode _ _ _ segmentPath => some segmentPath
  | .create path => some path
  | .write path _ => some path
  | .concatMux concatFile _ _ _ => some concatFile
  | .remove path => some path

/-- The temporary file names a run uses. -/
def tempNames (events : List Event) : List String := events.filterMap Event.tempPath

/-- The number a list of decimal digits denotes, continuing from `a`. -/
def digitsValue (a : Nat) (l : List Char) : Nat :=
  l.foldl (fun a c => a * 10 + (c.toNat - '0'.toNat)) a

/-! ## Auxiliary facts about the loops -/

theorem removeSegments_events (l : List String) (fs : FS) :
    (removeSegments l fs).2 = l.map Event.remove := by
  induction l generalizing fs with
  | nil => rfl
  | cons p rest ih => simp [removeSegments, ih]

theorem removeSegments_none (l : List String) (fs : FS) (p : String) (h : fs p = none) :
    (removeSegments l fs).1 p = none := by
  induction l generalizing fs with
  | nil => simpa [removeSegments] using h
  | cons q rest ih =>
    simp only [removeSegments]
    apply ih
    simp [FS.del, h]

theorem removeSegments_removed (l : List String) (fs : FS) (p : String) (h : p ∈ l) :
    (removeSegments l fs).1 p = none := by
  induction l generalizing fs with
  | nil => simp at h
  | cons q rest ih =>
    simp only [removeSegments]
    rcases List.mem_cons.mp h with rfl | h
    · exact removeSegments_none _ _ _ (by simp [FS.del])
    · exact ih _ h

/-- When every encode from index `i` on succeeds, the loop returns all segment names and
has run one encode per image, in order. -/
theorem segmentLoop_ok (env : Env) (t : Float64) (f : Int) (imgs : List String) (i : Nat)
    (segs : List String) (fs : FS)
    (hok : ∀ k, i ≤ k → k < i + imgs.length → ∃ c, env.zoomRun k = .ok c) :
    (segmentLoop env t f imgs i segs fs).val
        = .ok (segs ++ (List.range' i imgs.length).map segmentPath) ∧
      (segmentLoop env t f imgs i segs fs).events
        = (imgs.enumFrom i).map (fun p => Event.encode p.2 t f (segmentPath p.1)) := by
  induction imgs generalizing i segs fs with
  | nil => simp [segmentLoop]
  | cons img rest ih =>
    obtain ⟨c, hc⟩ := hok i (Nat.le_refl _) (by simp)
    have hrest : ∀ k, i + 1 ≤ k → k < i + 1 + rest.length → ∃ c, env.zoomRun k = .ok c := by
      intro k h1 h2
      exact hok k (by omega) (by simp only [List.length_cons]; omega)
    have := ih (i + 1) (segs ++ [segmentPath i]) ((env.zoomRun i).apply (segmentPath i) fs) hrest
    simp only [segmentLoop, hc, List.length_cons, List.range'_succ, List.map_cons,
      List.enumFrom_cons]
    rw [hc] at this
    constructor
    · rw [this.1]; simp
    · rw [this.2]

/-- When the encode for index `j` is the first to fail, the loop returns the error naming
`j`, has run the encodes `i..j` and nothing later, and has removed the segments named so
far. -/
theorem segmentLoop_fail (env : Env) (t : Float64) (f : Int) (imgs : List String) (i : Nat)
    (segs : List String) (fs : FS) (m : Nat) (err : String) (leftover : Option String)
    (hm : m < imgs.length)
    (hok : ∀ k, i ≤ k → k < i + m → ∃ c, env.zoomRun k = .ok c)
    (hfail : env.zoomRun (i + m) = .fail err leftover) :
    (segmentLoop env t f imgs i segs fs).val
        = .error ("error creating video segment " ++ toString (i + m) ++ ": " ++ err) ∧
      (segmentLoop env t f imgs i segs fs).events
        = ((imgs.take (m + 1)).enumFrom i).map
            (fun p => Event.encode p.2 t f (segmentPath p.1))
          ++ (segs ++ (List.range' i (m + 1)).map segmentPath).map Event.remove ∧
      ∀ p ∈ segs ++ (List.range' i (m + 1)).map segmentPath,
        (segmentLoop env t f imgs i segs fs).fs p = none := by
  induction imgs generalizing i segs fs m with
  | nil => simp at hm
  | cons img rest ih =>
    cases m with
    | zero =>
      simp only [Nat.add_zero] at hfail
      simp only [segmentLoop, hfail, removeSegments_events, Nat.add_zero, List.take_succ_cons,
        List.take_zero, List.enumFrom_cons, List.enumFrom_nil, List.map_cons, List.map_nil,
        List.range'_succ, List.range'_zero, List.cons_append, List.nil_append, true_and]
      intro p hp
      exact removeSegments_removed _ _ _ hp
    | succ m =>
      obtain ⟨c, hc⟩ := hok i (Nat.le_refl _) (by omega)
      have hm2 : m < rest.length := by simpa using hm
      have hrest : ∀ k, i + 1 ≤ k → k < i + 1 + m → ∃ c, env.zoomRun k = .ok c := by
        intro k h1 h2
        exact hok k (by omega) (by omega)
      have hf : env.zoomRun (i + 1 + m) = .fail err leftover := by
        rw [← hfail]; congr 1; omega
      have := ih (i + 1) (segs ++ [segmentPath i])
        ((env.zoomRun i).apply (segmentPath i) fs) m hm2 hrest hf
      have e1 : i + 1 + m = i + (m + 1) := by omega
      rw [e1] at this
      simp only [segmentLoop, hc, List.take_succ_cons, List.enumFrom_cons, List.map_cons,
        List.cons_append]
      rw [hc] at this
      refine ⟨this.1, ?_, ?_⟩
      · rw [this.2.1]
        simp [List.range'_succ]
      · intro p hp
        apply this.2.2
        rw [List.range'_succ i (m + 1)] at hp
        simpa using hp

/-- Every encode the loop runs is given the same duration and frame count. -/
theorem segmentLoop_encode_args (env : Env) (t : Float64) (f : Int) (imgs : List String)
    (i : Nat) (segs : List String) (fs : FS) (img : String) (t' : Float64) (f' : Int)
    (p : String)
    (h : Event.encode img t' f' p ∈ (segmentLoop env t f imgs i segs fs).events) :
    t' = t ∧ f' = f := by
  induction imgs generalizing i segs fs with
  | nil => simp [segmentLoop] at h
  | cons im rest ih =>
    simp only [segmentLoop] at h
    cases hz : env.zoomRun i with
    | ok c =>
      simp only [hz, List.mem_cons, Event.encode.injEq] at h
      rcases h with h | h
      · exact ⟨h.2.1, h.2.2.1⟩
      · rw [← hz] at h; exact ih _ _ _ h
    | fail e l =>
      simp only [hz, List.mem_cons, Event.encode.injEq, removeSegments_events,
        List.mem_map, reduceCtorEq, and_false, exists_false, or_false] at h
      exact ⟨h.2.1, h.2.2.1⟩

/-- The loop starts by encoding the first image. -/
theorem segmentLoop_first (env : Env) (t : Float64) (f : Int) (img : String)
    (rest : List String) (i : Nat) (segs : List String) (fs : FS) :
    (segmentLoop env t f (img :: rest) i segs fs).events.head?
      = some (Event.encode img t f (segmentPath i)) := by
  simp only [segmentLoop]
  cases env.zoomRun i <;> rfl

theorem join_cons (a : String) (l : List String) :
    String.join (a :: l) = a ++ String.join l := by
  apply String.ext
  simp [String.data_join, String.data_append]

/-- When every write from entry `k` on succeeds, the loop appends one line per segment,
in order. -/
theorem writeLoop_ok (env : Env) (segs : List String) (k : Nat) (fs : FS) (old : String)
    (hfile : fs videoConcatFile = some old)
    (hok : ∀ j, k ≤ j → j < k + segs.length → env.writeString j = .ok) :
    (writeLoop env segs k fs).val = none ∧
      (writeLoop env segs k fs).events
        = segs.map (fun s => Event.write videoConcatFile (concatLine s)) ∧
      (writeLoop env segs k fs).fs videoConcatFile
        = some (old ++ String.join (segs.map concatLine)) ∧
      ∀ p, p ≠ videoConcatFile → (writeLoop env segs k fs).fs p = fs p := by
  induction segs generalizing k fs old with
  | nil => simp [writeLoop, hfile, String.join]
  | cons s rest ih =>
    have h0 := hok k (Nat.le_refl _) (by simp)
    have hrest : ∀ j, k + 1 ≤ j → j < k + 1 + rest.length → env.writeString j = .ok := by
      intro j h1 h2
      exact hok j (by omega) (by simp only [List.length_cons]; omega)
    have := ih (k + 1)
      (fs.put videoConcatFile (old ++ concatLine s)) (old ++ concatLine s)
      (by simp [FS.put]) hrest
    simp only [writeLoop, h0, List.map_cons, hfile, Option.getD_some]
    refine ⟨this.1, by rw [this.2.1], ?_, ?_⟩
    · rw [this.2.2.1, join_cons, String.append_assoc]
    · intro p hp
      rw [this.2.2.2 p hp]
      simp [FS.put, hp]

theorem getAudioDuration_events (env : Env) (audioPath : String) (fs : FS) :
    (getAudioDuration env audioPath fs).events = [Event.probe audioPath] := by
  unfold getAudioDuration
  cases env.ffprobe audioPath with
  | error e => rfl
  | ok out => simp only []; cases parseFloat (trimSpace out) <;> rfl

/-- The shape of a run in which the probe and every encode succeed and the manifest is
created and written: the full sequence of events, the result, and the files removed. -/
theorem run_to_merge (env : Env) (audioPath outputPath : String) (imagePaths : List String)
    (fs : FS) (D : Float64)
    (hne : imagePaths ≠ [])
    (hprobe : (getAudioDuration env audioPath fs).val = .ok D)
    (henc : ∀ k, k < imagePaths.length → ∃ c, env.zoomRun k = .ok c)
    (hcreate : env.osCreate = none)
    (hwrite : ∀ k, k < imagePaths.length → env.writeString k = .ok) :
    (createVideoFromAudioAndImages env audioPath imagePaths outputPath fs).events
      = Event.probe audioPath ::
        (imagePaths.enum.map (fun p => Event.encode p.2
            (D.div (Float64.ofNat imagePaths.length))
            (((D.div (Float64.ofNat imagePaths.length)).mul (Float64.fin 30)).toInt
              env.intOutOfRange)
            (segmentPath p.1))
          ++ Event.create videoConcatFile
          :: ((List.range imagePaths.length).map
                (fun k => Event.write videoConcatFile (concatLine (segmentPath k)))
          ++ Event.concatMux videoConcatFile
              (some (String.join ((List.range imagePaths.length).map
                (fun k => concatLine (segmentPath k))))) audioPath outputPath
          :: ((List.range imagePaths.length).map (fun k => Event.remove (segmentPath k))
          ++ [Event.remove videoConcatFile]))) ∧
    (createVideoFromAudioAndImages env audioPath imagePaths outputPath fs).val
      = (match env.finalRun.2 with
         | .fail err _ =>
           some ("ffmpeg final merge error: " ++ err ++ ", output: " ++ env.finalRun.1)
         | .ok _ => none) ∧
    (createVideoFromAudioAndImages env audioPath imagePaths outputPath fs).fs videoConcatFile
      = none ∧
    ∀ k, k < imagePaths.length →
      (createVideoFromAudioAndImages env audioPath imagePaths outputPath fs).fs
        (segmentPath k) = none := by
  have hlen : ¬ imagePaths.length = 0 := by
    intro h; exact hne (List.length_eq_zero.mp h)
  obtain ⟨hsv, hse⟩ := segmentLoop_ok env (D.div (Float64.ofNat imagePaths.length))
    (((D.div (Float64.ofNat imagePaths.length)).mul (Float64.fin 30)).toInt env.intOutOfRange)
    imagePaths 0 [] (getAudioDuration env audioPath fs).fs
    (fun k _ h2 => henc k (by simpa using h2))
  simp only [List.nil_append] at hsv
  obtain ⟨hwv, hwe, hwf, -⟩ := writeLoop_ok env
    ((List.range' 0 imagePaths.length).map segmentPath) 0
    ((segmentLoop env (D.div (Float64.ofNat imagePaths.length))
      (((D.div (Float64.ofNat imagePaths.length)).mul (Float64.fin 30)).toInt
        env.intOutOfRange)
      imagePaths 0 [] (getAudioDuration env audioPath fs).fs).fs.put videoConcatFile "")
    "" (by simp [FS.put]) (fun j _ h2 => hwrite j (by simpa using h2))
  simp only [createVideoFromAudioAndImages, hlen, if_false, hprobe, hsv, hcreate,
    writeAndMerge, hwv, hwe, hwf, getAudioDuration_events, osRemove, hse]
  refine ⟨?_, ?_, ?_, ?_⟩
  · cases env.finalRun.2 <;>
      simp [removeSegments_events, List.enum, List.range_eq_range', Function.comp_def]
  · cases env.finalRun.2 <;> rfl
  · cases env.finalRun.2 <;> simp [FS.del]
  · intro k hk
    have hmem : segmentPath k ∈ (List.range' 0 imagePaths.length).map segmentPath :=
      List.mem_map.mpr ⟨k, by simpa using hk, rfl⟩
    cases env.finalRun.2 <;>
      simp [FS.del, removeSegments_removed _ _ _ hmem]

theorem writeLoop_no_encode (env : Env) (segs : List String) (k : Nat) (fs : FS) :
    ∀ e ∈ (writeLoop env segs k fs).events, e.isEncode = false := by
  induction segs generalizing k fs with
  | nil => simp [writeLoop]
  | cons s rest ih =>
    intro e he
    simp only [writeLoop] at he
    cases hw : env.writeString k with
    | ok =>
      simp only [hw, List.mem_cons] at he
      rcases he with rfl | he
      · rfl
      · exact ih _ _ e he
    | fail n err =>
      simp only [hw, List.mem_singleton] at he
      subst he; rfl

theorem removeSegments_no_encode (l : List String) (fs : FS) :
    ∀ e ∈ (removeSegments l fs).2, e.isEncode = false := by
  intro e he
  rw [removeSegments_events] at he
  obtain ⟨p, -, rfl⟩ := List.mem_map.mp he
  rfl

theorem writeAndMerge_no_encode (env : Env) (audioPath outputPath : String)
    (segs : List String) (fs : FS) :
    ∀ e ∈ (writeAndMerge env audioPath outputPath segs fs).events, e.isEncode = false := by
  intro e he
  unfold writeAndMerge at he
  cases hv : (writeLoop env segs 0 fs).val with
  | some err =>
    simp only [hv] at he
    exact writeLoop_no_encode _ _ _ _ e he
  | none =>
    simp only [hv] at he
    cases hr : env.finalRun.2 <;> simp only [hr, List.mem_append, List.mem_cons] at he <;>
      rcases he with he | rfl | he <;>
      first
        | exact writeLoop_no_encode _ _ _ _ e he
        | rfl
        | exact removeSegments_no_encode _ _ e he

/-- In every run that gets past the probe, the first image is encoded, and every encode is
given the duration `D / N` and the frame count `int(D / N * 30)` computed before the
loop. -/
theorem run_encode_args (env : Env) (audioPath outputPath : String) (img0 : String)
    (rest : List String) (fs : FS) (D : Float64)
    (hprobe : (getAudioDuration env audioPath fs).val = .ok D) :
    Event.encode img0 (D.div (Float64.ofNat (img0 :: rest).length))
        (((D.div (Float64.ofNat (img0 :: rest).length)).mul (Float64.fin 30)).toInt
          env.intOutOfRange) (segmentPath 0)
      ∈ (createVideoFromAudioAndImages env audioPath (img0 :: rest) outputPath fs).events ∧
    ∀ img t f p,
      Event.encode img t f p
        ∈ (createVideoFromAudioAndImages env audioPath (img0 :: rest) outputPath fs).events →
      t = D.div (Float64.ofNat (img0 :: rest).length) ∧
      f = ((D.div (Float64.ofNat (img0 :: rest).length)).mul (Float64.fin 30)).toInt
            env.intOutOfRange := by
  have hlen : ¬ (img0 :: rest).length = 0 := by simp
  have hfirst := segmentLoop_first env (D.div (Float64.ofNat (img0 :: rest).length))
    (((D.div (Float64.ofNat (img0 :: rest).length)).mul (Float64.fin 30)).toInt
      env.intOutOfRange) img0 rest 0 [] (getAudioDuration env audioPath fs).fs
  have hmem := List.mem_of_mem_head? hfirst
  have hargs := segmentLoop_encode_args env (D.div (Float64.ofNat (img0 :: rest).length))
    (((D.div (Float64.ofNat (img0 :: rest).length)).mul (Float64.fin 30)).toInt
      env.intOutOfRange) (img0 :: rest) 0 [] (getAudioDuration env audioPath fs).fs
  have hbody := fun segs fs' => writeAndMerge_no_encode env audioPath outputPath segs fs'
  simp only [createVideoFromAudioAndImages, hlen, if_false, hprobe]
  simp only [List.length_cons] at hmem hargs ⊢
  split
  · refine ⟨by simp [hmem], ?_⟩
    intro img t f p h
    simp only [getAudioDuration_events, List.mem_append, List.mem_singleton,
      reduceCtorEq, false_or] at h
    exact hargs img t f p h
  · split
    · refine ⟨by simp [hmem], ?_⟩
      intro img t f p h
      simp only [getAudioDuration_events, List.mem_append, List.mem_singleton,
        reduceCtorEq, false_or, or_false] at h
      exact hargs img t f p h
    · refine ⟨by simp [hmem], ?_⟩
      intro img t f p h
      simp only [getAudioDuration_events, List.mem_append, List.mem_singleton,
        reduceCtorEq, false_or, or_false, osRemove] at h
      rcases h with h | h
      · exact hargs img t f p h
      · exact absurd (hbody _ _ _ h) (by simp [Event.isEncode])

/-! ### Rounding to binary64 -/

theorem log2Fuel_spec (fuel n : Nat) (h : n ≤ fuel) (hn : 0 < n) :
    2 ^ log2Fuel fuel n ≤ n ∧ n < 2 ^ (log2Fuel fuel n + 1) := by
  induction fuel generalizing n with
  | zero => omega
  | succ fuel ih =>
    unfold log2Fuel
    split
    · constructor <;> simp <;> omega
    · next h2 =>
      have := ih (n / 2) (by omega) (by omega)
      obtain ⟨h3, h4⟩ := this
      rw [pow_succ] at h4 ⊢
      rw [pow_succ]
      constructor <;> omega

theorem floorLog2_spec (n : Nat) (hn : 0 < n) :
    2 ^ floorLog2 n ≤ n ∧ n < 2 ^ (floorLog2 n + 1) :=
  log2Fuel_spec n n (Nat.le_refl n) hn

theorem ilog2_le (a : ℚ) (ha : 0 < a) : (2 : ℚ) ^ ilog2 a ≤ a := by
  unfold ilog2
  simp only
  split
  · next h => exact h
  · have hnum : 0 < a.num := Rat.num_pos.mpr ha
    have hP : 0 < a.num.natAbs := Int.natAbs_pos.mpr (ne_of_gt hnum)
    have hQ : 0 < a.den := a.den_pos
    obtain ⟨h1, -⟩ := floorLog2_spec _ hP
    obtain ⟨-, h2⟩ := floorLog2_spec _ hQ
    have ha' : a = (a.num.natAbs : ℚ) / (a.den : ℚ) := by
      have hn : ((a.num.natAbs : Int)) = a.num := Int.natAbs_of_nonneg (le_of_lt hnum)
      have hc : ((a.num.natAbs : ℚ)) = (a.num : ℚ) := by
        rw [Nat.cast_natAbs, abs_of_pos hnum]
      rw [hc]
      exact (Rat.num_div_den a).symm
    have e : (2 : ℚ) ^ ((floorLog2 a.num.natAbs : Int) - (floorLog2 a.den : Int) - 1)
        = (2 : ℚ) ^ floorLog2 a.num.natAbs / (2 : ℚ) ^ (floorLog2 a.den + 1) := by
      rw [show ((floorLog2 a.num.natAbs : Int) - (floorLog2 a.den : Int) - 1)
        = (floorLog2 a.num.natAbs : Int) - ((floorLog2 a.den + 1 : Nat) : Int) by push_cast; ring]
      rw [zpow_sub₀ (by norm_num : (2 : ℚ) ≠ 0), zpow_natCast, zpow_natCast]
    rw [e]
    have h1' : (2 : ℚ) ^ floorLog2 a.num.natAbs ≤ (a.num.natAbs : ℚ) := by exact_mod_cast h1
    have h2' : (a.den : ℚ) ≤ (2 : ℚ) ^ (floorLog2 a.den + 1) := by exact_mod_cast le_of_lt h2
    have hQ' : (0 : ℚ) < a.den := by exact_mod_cast hQ
    calc (2 : ℚ) ^ floorLog2 a.num.natAbs / (2 : ℚ) ^ (floorLog2 a.den + 1)
        ≤ (a.num.natAbs : ℚ) / (a.den : ℚ) := div_le_div₀ (by positivity) h1' hQ' h2'
      _ = a := ha'.symm

theorem roundHalfEven_err (m : ℚ) : |(roundHalfEven m : ℚ) - m| ≤ 1 / 2 := by
  have h1 := Int.floor_le m
  have h2 := Int.lt_floor_add_one m
  unfold roundHalfEven
  simp only
  rw [abs_le]
  split
  · constructor <;> linarith
  · split
    · push_cast; constructor <;> linarith
    · split
      · constructor <;> linarith
      · push_cast; constructor <;> linarith

theorem roundHalfEven_nonneg (m : ℚ) (hm : 0 ≤ m) : 0 ≤ roundHalfEven m := by
  have h0 : 0 ≤ ⌊m⌋ := Int.floor_nonneg.mpr hm
  unfold roundHalfEven
  simp only
  split
  · exact h0
  · split
    · omega
    · split <;> omega

/-- The error of rounding a non-negative value below the overflow bound: at most half a
unit in the last place, which is at most `x / 2^53` or, for subnormal results, `2^-1075`. -/
theorem round_nonneg (x : ℚ) (hx : 0 ≤ x) (hb : x < overflowBound) :
    ∃ r, Float64.round x = Float64.fin r ∧ 0 ≤ r ∧ |r - x| ≤ x / 2 ^ 53 + 1 / 2 ^ 1075 := by
  by_cases h0 : x = 0
  · subst h0
    exact ⟨0, by simp [Float64.round], le_refl _, by simp⟩
  have hpos : 0 < x := lt_of_le_of_ne hx (Ne.symm h0)
  have habs : |x| = x := abs_of_nonneg hx
  have hno : ¬ overflowBound ≤ |x| := by rw [habs]; exact not_le.mpr hb
  have hnl : ¬ x < 0 := not_lt.mpr hx
  refine ⟨_, by simp only [Float64.round, h0, hno, hnl, if_false]; rfl, ?_, ?_⟩
  · rw [habs]
    have := roundHalfEven_nonneg (x / 2 ^ (max (ilog2 x - 52) (-1074))) (by positivity)
    have : (0 : ℚ) ≤ roundHalfEven (x / 2 ^ (max (ilog2 x - 52) (-1074))) := by
      exact_mod_cast this
    positivity
  · rw [habs]
    set qe : Int := max (ilog2 x - 52) (-1074) with hqe
    have hu : (0 : ℚ) < 2 ^ qe := by positivity
    have herr := roundHalfEven_err (x / 2 ^ qe)
    have h1 : |1 * (roundHalfEven (x / 2 ^ qe) : ℚ) * 2 ^ qe - x| ≤ 2 ^ qe / 2 := by
      have : 1 * (roundHalfEven (x / 2 ^ qe) : ℚ) * 2 ^ qe - x
          = ((roundHalfEven (x / 2 ^ qe) : ℚ) - x / 2 ^ qe) * 2 ^ qe := by
        field_simp
      rw [this, abs_mul, abs_of_pos hu]
      calc |(roundHalfEven (x / 2 ^ qe) : ℚ) - x / 2 ^ qe| * 2 ^ qe
          ≤ 1 / 2 * 2 ^ qe := mul_le_mul_of_nonneg_right herr (le_of_lt hu)
        _ = 2 ^ qe / 2 := by ring
    have h2 : (2 : ℚ) ^ qe / 2 ≤ x / 2 ^ 53 + 1 / 2 ^ 1075 := by
      rcases le_total (ilog2 x - 52) (-1074) with hc | hc
      · have : qe = -1074 := by rw [hqe]; exact max_eq_right hc
        rw [this]
        have e : (2 : ℚ) ^ (-1074 : Int) / 2 = 1 / 2 ^ 1075 := by
          rw [show (-1074 : Int) = -((1074 : Nat) : Int) by norm_num, zpow_neg, zpow_natCast,
            pow_succ (2 : ℚ) 1074]
          field_simp
        rw [e]
        have : (0 : ℚ) ≤ x / 2 ^ 53 := by positivity
        linarith
      · have : qe = ilog2 x - 52 := by rw [hqe]; exact max_eq_left hc
        rw [this]
        have e : (2 : ℚ) ^ (ilog2 x - 52) / 2 = 2 ^ ilog2 x / 2 ^ 53 := by
          rw [show (ilog2 x - 52 : Int) = ilog2 x - ((52 : Nat) : Int) by norm_num,
            zpow_sub₀ (by norm_num : (2 : ℚ) ≠ 0), zpow_natCast, pow_succ (2 : ℚ) 52]
          field_simp
        rw [e]
        have hl := ilog2_le x hpos
        have : (2 : ℚ) ^ ilog2 x / 2 ^ 53 ≤ x / 2 ^ 53 :=
          div_le_div_of_nonneg_right hl (by positivity)
        have : (0 : ℚ) ≤ 1 / 2 ^ 1075 := by positivity
        linarith
    exact le_trans h1 h2

theorem overflowBound_large : (2 : ℚ) ^ 60 < overflowBound := by
  unfold overflowBound
  norm_num

theorem round_zero : Float64.round 0 = Float64.fin 0 := by
  simp [Float64.round]

/-- Rounding keeps the sign: a negative result comes from a negative value. -/
theorem round_fin_neg (x r : ℚ) (h : Float64.round x = Float64.fin r) (hr : r < 0) :
    x < 0 := by
  by_contra hx
  have hx : 0 ≤ x := not_lt.mp hx
  by_cases hb : x < overflowBound
  · obtain ⟨r2, h1, h2, -⟩ := round_nonneg x hx hb
    rw [h] at h1
    injection h1 with h1
    linarith
  · have hb : overflowBound ≤ x := not_lt.mp hb
    have hpos : (0 : ℚ) < overflowBound := lt_trans (by positivity) overflowBound_large
    have h0 : x ≠ 0 := by linarith
    have : overflowBound ≤ |x| := by rw [abs_of_nonneg hx]; exact hb
    simp [Float64.round, h0, this] at h

theorem truncQ_eq_floor (q : ℚ) (h : 0 ≤ q) : Float64.truncQ q = ⌊q⌋ := by
  rw [Float64.truncQ, Rat.floor_def, Int.tdiv_eq_ediv (Rat.num_nonneg.mpr h) (by positivity)]

/-- The two float64 operations of the frame computation on a duration `q` of at most `2^45`
seconds split over `N ≥ 1` images: the quotient `d` is within half a unit in the last place
of `q / N`, the product `p` is within one half of `q / N * 30`, and `int(p)` is `⌊p⌋`. -/
theorem frames_bounded (impl : Float64 → Int) (q : ℚ) (N : Nat) (hN : 0 < N) (hq : 0 ≤ q)
    (hq2 : q ≤ 2 ^ 45) :
    ∃ d p : ℚ, Float64.round (q / N) = Float64.fin d ∧
      Float64.round (d * 30) = Float64.fin p ∧
      0 ≤ d ∧ |d - q / N| ≤ q / N / 2 ^ 53 + 1 / 2 ^ 1075 ∧
      0 ≤ p ∧ |p - q / N * 30| ≤ 1 / 2 ∧
      Float64.toInt impl (Float64.fin p) = ⌊p⌋ := by
  have hN1 : (1 : ℚ) ≤ N := by exact_mod_cast hN
  have hx0 : 0 ≤ q / N := by positivity
  have hx1 : q / N ≤ q := div_le_self hq hN1
  have hη : (1 : ℚ) / 2 ^ 1075 ≤ 1 / 2 ^ 53 :=
    one_div_le_one_div_of_le (by positivity) (pow_le_pow_right₀ (by norm_num) (by norm_num))
  have hη0 : (0 : ℚ) ≤ 1 / 2 ^ 1075 := by positivity
  have hbig := overflowBound_large
  obtain ⟨d, hd, hd0, hde⟩ := round_nonneg (q / N) hx0 (by
    have : q / N ≤ 2 ^ 60 := by
      have : (2 : ℚ) ^ 45 ≤ 2 ^ 60 := by norm_num
      linarith
    linarith)
  generalize (1 : ℚ) / 2 ^ 1075 = η at hη hη0 hde ⊢
  have hde' := abs_le.mp hde
  have hdub : d ≤ 2 * 2 ^ 45 + 1 := by
    have : q / N / 2 ^ 53 ≤ q / N := div_le_self hx0 (by norm_num)
    have : η ≤ 1 := le_trans hη (by norm_num)
    linarith [hde'.2]
  obtain ⟨p, hp, hp0, hpe⟩ := round_nonneg (d * 30) (by positivity) (by
    have : d * 30 ≤ 2 ^ 60 := by
      have : (2 * 2 ^ 45 + 1 : ℚ) * 30 ≤ 2 ^ 60 := by norm_num
      nlinarith
    linarith)
  have hpe' := abs_le.mp hpe
  have hpx : |p - q / N * 30| ≤ 1 / 2 := by
    rw [abs_le]
    have e1 : d * 30 / 2 ^ 53 = d * (30 / 2 ^ 53) := by ring
    have e2 : q / N / 2 ^ 53 = q / N * (1 / 2 ^ 53) := by ring
    rw [e1] at hpe'
    rw [e2] at hde'
    have h53 : (0 : ℚ) < 1 / 2 ^ 53 := by positivity
    have hη' : η ≤ 1 / 2 ^ 53 := hη
    have hxb : q / N ≤ 2 ^ 45 := le_trans hx1 hq2
    constructor <;> norm_num at * <;> nlinarith
  refine ⟨d, p, hd, hp, hd0, hde, hp0, hpx, ?_⟩
  · have hfl : Float64.truncQ p = ⌊p⌋ := truncQ_eq_floor p hp0
    have h0 : 0 ≤ ⌊p⌋ := Int.floor_nonneg.mpr hp0
    have hub : p < 9223372036854775807 := by
      have := (abs_le.mp hpx).2
      have hxb : q / N * 30 ≤ 2 ^ 45 * 30 := by nlinarith [le_trans hx1 hq2]
      have : (2 : ℚ) ^ 45 * 30 + 1 / 2 < 9223372036854775807 := by norm_num
      linarith
    have h1 : ⌊p⌋ ≤ 9223372036854775807 := by
      have : (⌊p⌋ : ℚ) ≤ p := Int.floor_le p
      have : (⌊p⌋ : ℚ) < 9223372036854775807 := lt_of_le_of_lt this hub
      have : ⌊p⌋ < 9223372036854775807 := by exact_mod_cast this
      omega
    simp only [Float64.toInt, hfl]
    rw [if_pos ⟨by omega, h1⟩]

/-- An integer part taken within one half of `x` is the nearest integer of `x` or one less,
and within one of `⌊x⌋`. -/
theorem floor_near (p x : ℚ) (h : |p - x| ≤ 1 / 2) :
    round x - 1 ≤ ⌊p⌋ ∧ ⌊p⌋ ≤ round x ∧ |⌊p⌋ - ⌊x⌋| ≤ 1 := by
  obtain ⟨h1, h2⟩ := abs_le.mp h
  rw [round_eq]
  have a1 : ⌊x + 1 / 2⌋ - 1 ≤ ⌊p⌋ := by
    rw [← Int.floor_sub_one]
    exact Int.floor_le_floor (by linarith)
  have a2 : ⌊p⌋ ≤ ⌊x + 1 / 2⌋ := Int.floor_le_floor (by linarith)
  have a3 : ⌊x + 1 / 2⌋ ≤ ⌊x⌋ + 1 := by
    rw [← Int.floor_add_one]
    exact Int.floor_le_floor (by linarith)
  have a4 : ⌊x⌋ ≤ ⌊x + 1 / 2⌋ := Int.floor_le_floor (by linarith)
  refine ⟨a1, a2, ?_⟩
  rw [abs_le]
  constructor <;> omega

/-- With a probed duration `0 ≤ q ≤ 2^45`, the first image is encoded and every encode is
given the float64 quotient `d` of `q` by `N` and the frame count `⌊p⌋`, `p` the float64
product of `d` and 30. -/
theorem run_encode_args_bounded (env : Env) (audioPath outputPath : String)
    (imagePaths : List String) (fs : FS) (q : ℚ)
    (hne : imagePaths ≠ []) (hq : 0 ≤ q) (hq2 : q ≤ 2 ^ 45)
    (hprobe : (getAudioDuration env audioPath fs).val = .ok (Float64.fin q)) :
    ∃ d p : ℚ, Float64.round (q / imagePaths.length) = Float64.fin d ∧
      Float64.round (d * 30) = Float64.fin p ∧
      0 ≤ d ∧ |d - q / imagePaths.length| ≤ q / imagePaths.length / 2 ^ 53 + 1 / 2 ^ 1075 ∧
      |p - q / imagePaths.length * 30| ≤ 1 / 2 ∧
      (∃ img, Event.encode img (Float64.fin d) ⌊p⌋ (segmentPath 0)
        ∈ (createVideoFromAudioAndImages env audioPath imagePaths outputPath fs).events) ∧
      (∀ img t f path,
        Event.encode img t f path
          ∈ (createVideoFromAudioAndImages env audioPath imagePaths outputPath fs).events →
        t = Float64.fin d ∧ f = ⌊p⌋) := by
  obtain ⟨img0, rest, rfl⟩ := List.exists_cons_of_ne_nil hne
  obtain ⟨h1, h2⟩ := run_encode_args env audioPath outputPath img0 rest fs (Float64.fin q)
    hprobe
  obtain ⟨d, p, hd, hp, hd0, hde, -, hpx, hi⟩ := frames_bounded env.intOutOfRange q
    (img0 :: rest).length (by simp) hq hq2
  have hN : ((img0 :: rest).length : ℚ) ≠ 0 := by
    simp only [List.length_cons]; positivity
  have ht : (Float64.fin q).div (Float64.ofNat (img0 :: rest).length) = Float64.fin d := by
    simp only [Float64.div, Float64.ofNat, hN, if_false]
    exact hd
  have hf : ((Float64.fin d).mul (Float64.fin 30)).toInt env.intOutOfRange = ⌊p⌋ := by
    simp only [Float64.mul]
    rw [hp]
    exact hi
  rw [ht, hf] at h1 h2
  exact ⟨d, p, hd, hp, hd0, hde, hpx, ⟨img0, h1⟩, h2⟩

/-! ### Segment names are pairwise different -/

theorem digitChar_value (k : Nat) (h : k < 10) :
    (Nat.digitChar k).toNat - '0'.toNat = k := by
  interval_cases k <;> rfl

theorem digitsValue_toDigitsCore (fuel n : Nat) (ds : List Char) (h : n < fuel) :
    digitsValue 0 (Nat.toDigitsCore 10 fuel n ds) = digitsValue n ds := by
  induction fuel generalizing n ds with
  | zero => omega
  | succ fuel ih =>
    simp only [Nat.toDigitsCore]
    split
    · next h0 =>
      have hn : n < 10 := by omega
      simp only [digitsValue, List.foldl_cons, Nat.zero_mul, Nat.zero_add]
      rw [digitChar_value _ (Nat.mod_lt _ (by decide)), Nat.mod_eq_of_lt hn]
    · next h0 =>
      rw [ih (n / 10) _ (by omega)]
      simp only [digitsValue, List.foldl_cons]
      rw [digitChar_value _ (Nat.mod_lt _ (by decide))]
      congr 1
      omega

theorem toString_nat_injective (a b : Nat) (h : toString a = toString b) : a = b := by
  have h2 : Nat.toDigits 10 a = Nat.toDigits 10 b := by
    have := congrArg String.data h
    simpa [toString, Nat.repr, List.asString] using this
  have ha := digitsValue_toDigitsCore (a + 1) a [] (by omega)
  have hb := digitsValue_toDigitsCore (b + 1) b [] (by omega)
  simp only [digitsValue, List.foldl_nil] at ha hb
  rw [← ha, ← hb]
  exact congrArg _ h2

theorem segmentPath_injective (i j : Nat) (h : segmentPath i = segmentPath j) : i = j := by
  apply toString_nat_injective
  have := congrArg String.data h
  simp only [segmentPath, String.data_append, List.append_assoc] at this
  have h2 := List.append_cancel_right (List.append_cancel_left this)
  exact String.ext h2

theorem concatLine_injective (a b : String) (h : concatLine a = concatLine b) : a = b := by
  have := congrArg String.data h
  simp only [concatLine, String.data_append, List.append_assoc] at this
  exact String.ext (List.append_cancel_right (List.append_cancel_left this))

theorem segmentPath_ne_videoConcatFile (k : Nat) : segmentPath k ≠ videoConcatFile := by
  intro h
  have := congrArg String.data h
  simp [segmentPath, videoConcatFile, String.data_append] at this

/-! ### Files left by the loops -/

/-- The encode loop leaves every path alone that is not one of its segment names. -/
theorem segmentLoop_ok_frame (env : Env) (t : Float64) (f : Int) (imgs : List String)
    (i : Nat) (segs : List String) (fs : FS) (p : String)
    (hok : ∀ k, i ≤ k → k < i + imgs.length → ∃ c, env.zoomRun k = .ok c)
    (hp : ∀ k, i ≤ k → k < i + imgs.length → p ≠ segmentPath k) :
    (segmentLoop env t f imgs i segs fs).fs p = fs p := by
  induction imgs generalizing i segs fs with
  | nil => simp [segmentLoop]
  | cons img rest ih =>
    obtain ⟨c, hc⟩ := hok i (Nat.le_refl _) (by simp)
    have hi := hp i (Nat.le_refl _) (by simp)
    simp only [segmentLoop, hc]
    have := ih (i + 1) (segs ++ [segmentPath i]) ((RunOutcome.ok c).apply (segmentPath i) fs)
      (fun k h1 h2 => hok k (by omega) (by simp only [List.length_cons]; omega))
      (fun k h1 h2 => hp k (by omega) (by simp only [List.length_cons]; omega))
    rw [this]
    simp [RunOutcome.apply, FS.put, hi]

/-- When every encode succeeds, each segment file holds what its encode wrote. -/
theorem segmentLoop_ok_files (env : Env) (t : Float64) (f : Int) (imgs : List String)
    (i : Nat) (segs : List String) (fs : FS) (content : Nat → String)
    (hok : ∀ k, i ≤ k → k < i + imgs.length → env.zoomRun k = .ok (content k)) :
    ∀ k, i ≤ k → k < i + imgs.length →
      (segmentLoop env t f imgs i segs fs).fs (segmentPath k) = some (content k) := by
  induction imgs generalizing i segs fs with
  | nil => intro k h1 h2; simp at h2; omega
  | cons img rest ih =>
    intro k h1 h2
    have hc := hok i (Nat.le_refl _) (by simp)
    have hrest : ∀ k, i + 1 ≤ k → k < i + 1 + rest.length →
        env.zoomRun k = .ok (content k) :=
      fun k h1 h2 => hok k (by omega) (by simp only [List.length_cons]; omega)
    simp only [segmentLoop, hc]
    by_cases hk : k = i
    · subst hk
      rw [segmentLoop_ok_frame env t f rest (k + 1) _ _ (segmentPath k)
        (fun j h1 h2 => ⟨_, hrest j h1 h2⟩)
        (fun j h1 _ hj => by have := segmentPath_injective _ _ hj; omega)]
      simp [RunOutcome.apply, FS.put]
    · exact ih (i + 1) _ _ hrest k (by omega) (by simp only [List.length_cons] at h2; omega)

/-- The write loop changes no file but the manifest. -/
theorem writeLoop_frame (env : Env) (segs : List String) (k : Nat) (fs : FS) (p : String)
    (hp : p ≠ videoConcatFile) : (writeLoop env segs k fs).fs p = fs p := by
  induction segs generalizing k fs with
  | nil => simp [writeLoop]
  | cons s rest ih =>
    simp only [writeLoop]
    cases env.writeString k with
    | ok => simp only []; rw [ih]; simp [FS.put, hp]
    | fail n err => simp [FS.put, hp]

/-- When the write of entry `k + m` is the first to fail, the loop returns its error. -/
theorem writeLoop_fail (env : Env) (segs : List String) (k : Nat) (fs : FS) (m n : Nat)
    (err : String) (hm : m < segs.length)
    (hok : ∀ j, k ≤ j → j < k + m → env.writeString j = .ok)
    (hfail : env.writeString (k + m) = .fail n err) :
    (writeLoop env segs k fs).val = some err := by
  induction segs generalizing k fs m with
  | nil => simp at hm
  | cons s rest ih =>
    cases m with
    | zero =>
      simp only [Nat.add_zero] at hfail
      simp only [writeLoop, hfail]
    | succ m =>
      have h0 := hok k (Nat.le_refl _) (by omega)
      simp only [writeLoop, h0]
      apply ih (k + 1) _ m (by simpa using hm) (fun j h1 h2 => hok j (by omega) (by omega))
      rw [← hfail]; congr 1; omega

/-! ### The sign of a parsed number -/

theorem special_not_fin (cs : List Char) (q : ℚ) (n : Nat) :
    special cs ≠ some (Float64.fin q, n) := by
  intro h
  unfold special at h
  split at h
  · simp at h
  · dsimp only at h
    repeat' split at h
    all_goals simp at h

theorem readFloat_neg (c : Char) (cs : List Char) (p : Parsed)
    (h : readFloat (c :: cs) = some p) : p.neg = (c == '-') := by
  unfold readFloat at h
  dsimp only at h
  generalize readDigits _ _ _ = r at h
  obtain ⟨st, s3⟩ := r
  dsimp only at h
  generalize (match (if c = '+' ∨ c = '-' then cs else c :: cs) with
    | c0 :: c1 :: _ :: _ => c0 == '0' && lower c1 == 'x'
    | _ => false) = hex at h
  repeat' split at h
  all_goals first
    | (cases h; done)
    | (cases h; rfl)

theorem value_neg (p : Parsed) (h : p.value < 0) : p.neg = true := by
  unfold Parsed.value at h
  by_contra hn
  simp only [Bool.not_eq_true] at hn
  have : (0 : ℚ) ≤ (p.mant : ℚ) * (if p.hex then (2 : ℚ) else 10) ^ p.exp := by
    apply mul_nonneg (by positivity)
    split <;> positivity
  simp only [hn, Bool.false_eq_true, if_false] at h
  linarith

theorem parseFloat_negative (s : String) (q : ℚ) (h : parseFloat s = .ok (Float64.fin q))
    (hq : q < 0) : s.toList.head? = some '-' := by
  unfold parseFloat at h
  dsimp only at h
  split at h
  · next v n hs =>
    split at h
    · cases h
    · cases h
      exact absurd hs (special_not_fin _ _ _)
  · split at h
    · cases h
    · next p hp =>
      split at h
      · cases h
      · split at h
        · cases h
        · injection h with h
          have hv := round_fin_neg _ _ h hq
          cases hcs : s.toList with
          | nil => rw [hcs] at hp; simp [readFloat] at hp
          | cons c cs =>
            rw [hcs] at hp
            have h1 := readFloat_neg c cs p hp
            have h2 := value_neg p hv
            rw [h2] at h1
            simp only [List.head?_cons, Option.some.injEq]
            simpa using h1.symm

/-! ## The properties -/

/-- C1: with an empty image list the function returns the error `no images provided`,
having started no external program and touched no file: the event list is empty and the
file system is the one it was given. -/
theorem C1_empty_images_rejected_first (env : Env) (audioPath outputPath : String) (fs : FS) :
    (createVideoFromAudioAndImages env audioPath [] outputPath fs).val
        = some "no images provided" ∧
      (createVideoFromAudioAndImages env audioPath [] outputPath fs).events = [] ∧
      (createVideoFromAudioAndImages env audioPath [] outputPath fs).fs = fs := by
  simp [createVideoFromAudioAndImages]

/-- C2: when the probe succeeds and the encode for index `i` is the first to fail, the
function returns the error naming `i`; none of the segment files `0..i` exists afterwards;
the events are the probe, the encodes for `0..i` in order, and the removal of the segment
files `0..i`, so no encode runs for a later index, the manifest is neither created nor
written, and the concat/mux program is not started. -/
theorem C2_first_failing_encode (env : Env) (audioPath outputPath : String)
    (imagePaths : List String) (fs : FS) (D : Float64) (i : Nat) (err : String)
    (leftover : Option String)
    (hprobe : (getAudioDuration env audioPath fs).val = .ok D)
    (hi : i < imagePaths.length)
    (hprev : ∀ j, j < i → ∃ c, env.zoomRun j = .ok c)
    (hfail : env.zoomRun i = .fail err leftover) :
    (createVideoFromAudioAndImages env audioPath imagePaths outputPath fs).val
        = some ("error creating video segment " ++ toString i ++ ": " ++ err) ∧
      (∀ k, k ≤ i →
        (createVideoFromAudioAndImages env audioPath imagePaths outputPath fs).fs
          (segmentPath k) = none) ∧
      (createVideoFromAudioAndImages env audioPath imagePaths outputPath fs).events
        = Event.probe audioPath ::
          ((imagePaths.take (i + 1)).enum.map (fun p => Event.encode p.2
              (D.div (Float64.ofNat imagePaths.length))
              (((D.div (Float64.ofNat imagePaths.length)).mul (Float64.fin 30)).toInt
                env.intOutOfRange)
              (segmentPath p.1))
            ++ (List.range (i + 1)).map (fun k => Event.remove (segmentPath k))) ∧
      (∀ e ∈ (createVideoFromAudioAndImages env audioPath imagePaths outputPath fs).events,
        e.isManifestOrMerge = false) := by
  have hlen : ¬ imagePaths.length = 0 := by omega
  obtain ⟨hv, he, hf⟩ := segmentLoop_fail env (D.div (Float64.ofNat imagePaths.length))
    (((D.div (Float64.ofNat imagePaths.length)).mul (Float64.fin 30)).toInt env.intOutOfRange)
    imagePaths 0 [] (getAudioDuration env audioPath fs).fs i err leftover hi
    (fun k _ h2 => hprev k (by simpa using h2)) (by simpa using hfail)
  simp only [Nat.zero_add, List.nil_append] at hv he hf
  have hev : (createVideoFromAudioAndImages env audioPath imagePaths outputPath fs).events
        = Event.probe audioPath ::
          ((imagePaths.take (i + 1)).enum.map (fun p => Event.encode p.2
              (D.div (Float64.ofNat imagePaths.length))
              (((D.div (Float64.ofNat imagePaths.length)).mul (Float64.fin 30)).toInt
                env.intOutOfRange)
              (segmentPath p.1))
            ++ (List.range (i + 1)).map (fun k => Event.remove (segmentPath k))) := by
    simp only [createVideoFromAudioAndImages, hlen, if_false, hprobe, hv, he,
      getAudioDuration_events]
    simp [List.enum, List.range_eq_range', Function.comp_def]
  refine ⟨?_, ?_, hev, ?_⟩
  · simp only [createVideoFromAudioAndImages, hlen, if_false, hprobe, hv]
  · intro k hk
    simp only [createVideoFromAudioAndImages, hlen, if_false, hprobe, hv]
    apply hf
    exact List.mem_map.mpr ⟨k, by simp; omega, rfl⟩
  · intro e he'
    rw [hev] at he'
    simp only [List.mem_cons, List.mem_append, List.mem_map] at he'
    rcases he' with rfl | ⟨p, -, rfl⟩ | ⟨k, -, rfl⟩ <;> rfl

/-- A run with three images whose second encode fails: the hypotheses of C2 hold and the
error names index 1. -/
theorem C2_first_failing_encode_witness :
    (createVideoFromAudioAndImages envEncodeFails "a.mp3" ["A", "B", "C"] "out.mp4"
        noFiles).val = some "error creating video segment 1: exit status 1" ∧
      (createVideoFromAudioAndImages envEncodeFails "a.mp3" ["A", "B", "C"] "out.mp4"
        noFiles).fs (segmentPath 1) = none :=
  have h := C2_first_failing_encode envEncodeFails "a.mp3" "out.mp4" ["A", "B", "C"] noFiles
    (Float64.fin 9) 1 "exit status 1" (some "junk") (by decide!) (by decide)
    (fun j hj => ⟨"video", by
      have : j = 0 := by omega
      subst this; rfl⟩) rfl
  ⟨h.1, h.2.1 1 (Nat.le_refl 1)⟩

/-- C3: when the probe, every encode, the creation of the manifest and every write
succeed, the encodes run once per image in input order, the one for the image at index
`k` producing `/tmp/segment_k.mp4`; the manifest is written as one entry per image in that
order, entry `k` being the line `file '/tmp/segment_k.mp4'`; and the concat/mux program
finds exactly these `N` lines as the manifest. -/
theorem C3_manifest_order (env : Env) (audioPath outputPath : String)
    (imagePaths : List String) (fs : FS) (D : Float64)
    (hne : imagePaths ≠ [])
    (hprobe : (getAudioDuration env audioPath fs).val = .ok D)
    (henc : ∀ k, k < imagePaths.length → ∃ c, env.zoomRun k = .ok c)
    (hcreate : env.osCreate = none)
    (hwrite : ∀ k, k < imagePaths.length → env.writeString k = .ok) :
    (createVideoFromAudioAndImages env audioPath imagePaths outputPath fs).events.filter
        Event.isEncode
      = imagePaths.enum.map (fun p => Event.encode p.2
          (D.div (Float64.ofNat imagePaths.length))
          (((D.div (Float64.ofNat imagePaths.length)).mul (Float64.fin 30)).toInt
            env.intOutOfRange)
          ("/tmp/segment_" ++ toString p.1 ++ ".mp4")) ∧
    (createVideoFromAudioAndImages env audioPath imagePaths outputPath fs).events.filter
        Event.isWrite
      = (List.range imagePaths.length).map (fun k =>
          Event.write "/tmp/video_concat.txt"
            ("file '" ++ ("/tmp/segment_" ++ toString k ++ ".mp4") ++ "'\n")) ∧
    Event.concatMux "/tmp/video_concat.txt"
        (some (String.join ((List.range imagePaths.length).map (fun k =>
          "file '" ++ ("/tmp/segment_" ++ toString k ++ ".mp4") ++ "'\n"))))
        audioPath outputPath
      ∈ (createVideoFromAudioAndImages env audioPath imagePaths outputPath fs).events ∧
    ((List.range imagePaths.length).map (fun k =>
        "file '" ++ ("/tmp/segment_" ++ toString k ++ ".mp4") ++ "'\n")).length
      = imagePaths.length ∧
    ((List.range imagePaths.length).map (fun k =>
        "file '" ++ ("/tmp/segment_" ++ toString k ++ ".mp4") ++ "'\n")).Nodup := by
  obtain ⟨hev, -, -, -⟩ := run_to_merge env audioPath outputPath imagePaths fs D hne hprobe
    henc hcreate hwrite
  rw [hev]
  refine ⟨?_, ?_, ?_, by simp, ?_⟩
  rotate_right
  · refine List.Nodup.map ?_ (List.nodup_range _)
    intro a b hab
    exact segmentPath_injective a b (concatLine_injective _ _ hab)
  · simp [List.filter_cons, List.filter_append, List.filter_map, Event.isEncode,
      Function.comp_def, segmentPath]
  · simp [List.filter_cons, List.filter_append, List.filter_map, Event.isEncode,
      Function.comp_def, segmentPath, concatLine, videoConcatFile, Event.isWrite]
  · simp [segmentPath, concatLine, videoConcatFile]

/-- A run with three images in which everything succeeds: the hypotheses of C3 hold and the
manifest handed to the concat/mux program lists the three segments in input order. -/
theorem C3_manifest_order_witness :
    Event.concatMux "/tmp/video_concat.txt"
        (some "file '/tmp/segment_0.mp4'\nfile '/tmp/segment_1.mp4'\nfile '/tmp/segment_2.mp4'\n")
        "a.mp3" "out.mp4"
      ∈ (createVideoFromAudioAndImages envOk "a.mp3" ["A", "B", "C"] "out.mp4"
          noFiles).events :=
  (C3_manifest_order envOk "a.mp3" "out.mp4" ["A", "B", "C"] noFiles (Float64.fin 9)
    (by decide) (by decide!) (fun _ _ => ⟨"video", rfl⟩) rfl (fun _ _ => rfl)).2.2.1

/-- C5: when the manifest has been written (probe, encodes, creation and writes all
succeeded) the concat/mux program is started, and whatever its outcome the manifest file
and every one of the `N` segment files are gone when the function returns; if the program
fails the error ends with the output captured from it, and if it succeeds the result is
`nil`. -/
theorem C5_cleanup_after_merge (env : Env) (audioPath outputPath : String)
    (imagePaths : List String) (fs : FS) (D : Float64)
    (hne : imagePaths ≠ [])
    (hprobe : (getAudioDuration env audioPath fs).val = .ok D)
    (henc : ∀ k, k < imagePaths.length → ∃ c, env.zoomRun k = .ok c)
    (hcreate : env.osCreate = none)
    (hwrite : ∀ k, k < imagePaths.length → env.writeString k = .ok) :
    (∃ m, Event.concatMux videoConcatFile m audioPath outputPath
        ∈ (createVideoFromAudioAndImages env audioPath imagePaths outputPath fs).events) ∧
    (createVideoFromAudioAndImages env audioPath imagePaths outputPath fs).fs videoConcatFile
      = none ∧
    (∀ k, k < imagePaths.length →
      (createVideoFromAudioAndImages env audioPath imagePaths outputPath fs).fs
        (segmentPath k) = none) ∧
    (∀ err leftover, env.finalRun.2 = .fail err leftover →
      (createVideoFromAudioAndImages env audioPath imagePaths outputPath fs).val
        = some ("ffmpeg final merge error: " ++ err ++ ", output: " ++ env.finalRun.1)) ∧
    (∀ content, env.finalRun.2 = .ok content →
      (createVideoFromAudioAndImages env audioPath imagePaths outputPath fs).val = none) := by
  obtain ⟨hev, hval, hm, hs⟩ := run_to_merge env audioPath outputPath imagePaths fs D hne
    hprobe henc hcreate hwrite
  refine ⟨?_, hm, hs, ?_, ?_⟩
  · rw [hev]
    exact ⟨some (String.join ((List.range imagePaths.length).map
      (fun k => concatLine (segmentPath k)))), by simp⟩
  · intro err leftover h
    rw [hval, h]
  · intro content h
    rw [hval, h]

/-- A run with two images whose concat/mux run fails: the hypotheses of C5 hold, both
segment files and the manifest are gone, and the error carries the captured output. -/
theorem C5_cleanup_after_merge_witness :
    (createVideoFromAudioAndImages envMergeFails "a.mp3" ["A", "B"] "out.mp4"
        noFiles).fs "/tmp/video_concat.txt" = none ∧
      (createVideoFromAudioAndImages envMergeFails "a.mp3" ["A", "B"] "out.mp4"
        noFiles).fs "/tmp/segment_1.mp4" = none ∧
      (createVideoFromAudioAndImages envMergeFails "a.mp3" ["A", "B"] "out.mp4"
        noFiles).val
        = some "ffmpeg final merge error: exit status 1, output: Invalid data found" :=
  have h := C5_cleanup_after_merge envMergeFails "a.mp3" "out.mp4" ["A", "B"] noFiles
    (Float64.fin 9) (by decide) (by decide!) (fun _ _ => ⟨"video", rfl⟩) rfl (fun _ _ => rfl)
  ⟨h.2.1, h.2.2.1 1 (by decide), h.2.2.2.1 "exit status 1" none rfl⟩

/-- C4 (the code does not do this): when the probe and every encode succeed and then
either `os.Create` of the manifest fails or a manifest write fails, the function returns an
error and every one of the `N` segment files is still there, holding what its encode
wrote. -/
theorem C4_segments_left_when_manifest_fails (env : Env) (audioPath outputPath : String)
    (imagePaths : List String) (fs : FS) (D : Float64) (content : Nat → String)
    (hne : imagePaths ≠ [])
    (hprobe : (getAudioDuration env audioPath fs).val = .ok D)
    (henc : ∀ k, k < imagePaths.length → env.zoomRun k = .ok (content k))
    (hman : (∃ err, env.osCreate = some err) ∨
      (env.osCreate = none ∧ ∃ j n err, j < imagePaths.length ∧
        (∀ k, k < j → env.writeString k = .ok) ∧ env.writeString j = .fail n err)) :
    (∃ err, (createVideoFromAudioAndImages env audioPath imagePaths outputPath fs).val
        = some err) ∧
    ∀ k, k < imagePaths.length →
      (createVideoFromAudioAndImages env audioPath imagePaths outputPath fs).fs
        (segmentPath k) = some (content k) := by
  have hlen : ¬ imagePaths.length = 0 := by
    intro h; exact hne (List.length_eq_zero.mp h)
  obtain ⟨hsv, -⟩ := segmentLoop_ok env (D.div (Float64.ofNat imagePaths.length))
    (((D.div (Float64.ofNat imagePaths.length)).mul (Float64.fin 30)).toInt env.intOutOfRange)
    imagePaths 0 [] (getAudioDuration env audioPath fs).fs
    (fun k _ h2 => ⟨_, henc k (by simpa using h2)⟩)
  have hsf := segmentLoop_ok_files env (D.div (Float64.ofNat imagePaths.length))
    (((D.div (Float64.ofNat imagePaths.length)).mul (Float64.fin 30)).toInt env.intOutOfRange)
    imagePaths 0 [] (getAudioDuration env audioPath fs).fs content
    (fun k _ h2 => henc k (by simpa using h2))
  simp only [List.nil_append] at hsv
  rcases hman with ⟨err, hc⟩ | ⟨hc, j, n, err, hj, hok, hfail⟩
  · simp only [createVideoFromAudioAndImages, hlen, if_false, hprobe, hsv, hc]
    exact ⟨⟨err, rfl⟩, fun k hk => hsf k (Nat.zero_le _) (by simpa using hk)⟩
  · have hw := writeLoop_fail env ((List.range' 0 imagePaths.length).map segmentPath) 0
      ((segmentLoop env (D.div (Float64.ofNat imagePaths.length))
        (((D.div (Float64.ofNat imagePaths.length)).mul (Float64.fin 30)).toInt
          env.intOutOfRange)
        imagePaths 0 [] (getAudioDuration env audioPath fs).fs).fs.put videoConcatFile "")
      j n err (by simpa using hj) (fun k _ h2 => hok k (by simpa using h2))
      (by simpa using hfail)
    simp only [createVideoFromAudioAndImages, hlen, if_false, hprobe, hsv, hc, writeAndMerge,
      hw, osRemove]
    refine ⟨⟨err, rfl⟩, fun k hk => ?_⟩
    have hk2 := segmentPath_ne_videoConcatFile k
    simp only [FS.del, hk2, if_false]
    rw [writeLoop_frame _ _ _ _ _ hk2]
    simp only [FS.put, hk2, if_false]
    exact hsf k (Nat.zero_le _) (by simpa using hk)

/-- Two images, the manifest cannot be created, or its second write fails: the hypotheses
of C4 hold either way, and both segment files are still there when the function returns
its error. -/
theorem C4_segments_left_when_manifest_fails_witness :
    ((createVideoFromAudioAndImages envCreateFails "a.mp3" ["A", "B"] "out.mp4" noFiles).fs
        "/tmp/segment_0.mp4" = some "video" ∧
      (createVideoFromAudioAndImages envCreateFails "a.mp3" ["A", "B"] "out.mp4" noFiles).fs
        "/tmp/segment_1.mp4" = some "video") ∧
    ((createVideoFromAudioAndImages envWriteFails "a.mp3" ["A", "B"] "out.mp4" noFiles).fs
        "/tmp/segment_0.mp4" = some "video" ∧
      (createVideoFromAudioAndImages envWriteFails "a.mp3" ["A", "B"] "out.mp4" noFiles).fs
        "/tmp/segment_1.mp4" = some "video") ∧
    (createVideoFromAudioAndImages envCreateFails "a.mp3" ["A", "B"] "out.mp4" noFiles).val
        = some "open /tmp/video_concat.txt: permission denied" ∧
    (createVideoFromAudioAndImages envWriteFails "a.mp3" ["A", "B"] "out.mp4" noFiles).val
        = some "write /tmp/video_concat.txt: no space left on device" :=
  have h₁ := C4_segments_left_when_manifest_fails envCreateFails "a.mp3" "out.mp4" ["A", "B"]
    noFiles (Float64.fin 9) (fun _ => "video") (by decide) (by decide!) (fun _ _ => rfl)
    (Or.inl ⟨_, rfl⟩)
  have h₂ := C4_segments_left_when_manifest_fails envWriteFails "a.mp3" "out.mp4" ["A", "B"]
    noFiles (Float64.fin 9) (fun _ => "video") (by decide) (by decide!) (fun _ _ => rfl)
    (Or.inr ⟨rfl, 1, 0, "write /tmp/video_concat.txt: no space left on device", by decide,
      fun k hk => by
        have : k = 0 := by omega
        subst this; rfl,
      rfl⟩)
  ⟨⟨h₁.2 0 (by decide), h₁.2 1 (by decide)⟩, ⟨h₂.2 0 (by decide), h₂.2 1 (by decide)⟩,
    by decide!, by decide!⟩

/-- C6 as stated fails: when the probe prints `-5`, `NaN` or `Inf`, `getAudioDuration`
returns the duration -5, NaN or +Inf and no error. -/
theorem C6_counterexample :
    (getAudioDuration (envProbe "-5\n") "a.mp3" noFiles).val = .ok (Float64.fin (-5)) ∧
      (getAudioDuration (envProbe "NaN\n") "a.mp3" noFiles).val = .ok Float64.nan ∧
      (getAudioDuration (envProbe "Inf\n") "a.mp3" noFiles).val
        = .ok (Float64.inf false) := by
  decide!

/-- C6 as amended: `getAudioDuration` returns a duration exactly when the probe exits zero
and `strconv.ParseFloat` accepts its trimmed output, and then returns the parsed value; a
failed probe gives the probe error and a rejected output the parse error.  `ParseFloat`
does not ask for a non-negative or finite number: `-5`, `NaN` and `Inf` are accepted like
`9.000000`, while the empty output and `abc` are rejected; a negative duration comes only
from an output that starts with a minus sign. -/
theorem C6_duration_iff_parseFloat_accepts (env : Env) (audioPath : String) (fs : FS) :
    ((∃ d, (getAudioDuration env audioPath fs).val = .ok d) ↔
      ∃ out d, env.ffprobe audioPath = .ok out ∧ parseFloat (trimSpace out) = .ok d) ∧
    (∀ e, env.ffprobe audioPath = .error e →
      (getAudioDuration env audioPath fs).val
        = .error ("failed to get audio duration: " ++ e)) ∧
    (∀ out e, env.ffprobe audioPath = .ok out → parseFloat (trimSpace out) = .error e →
      (getAudioDuration env audioPath fs).val
        = .error ("failed to parse duration: " ++ numErrorText env (trimSpace out) e)) ∧
    (∀ out d, env.ffprobe audioPath = .ok out → parseFloat (trimSpace out) = .ok d →
      (getAudioDuration env audioPath fs).val = .ok d) ∧
    (∀ out q, env.ffprobe audioPath = .ok out →
      (getAudioDuration env audioPath fs).val = .ok (Float64.fin q) → q < 0 →
      (trimSpace out).toList.head? = some '-') ∧
    parseFloat "9.000000" = .ok (Float64.fin 9) ∧
    parseFloat "-5" = .ok (Float64.fin (-5)) ∧
    parseFloat "NaN" = .ok Float64.nan ∧
    parseFloat "Inf" = .ok (Float64.inf false) ∧
    parseFloat "" = .error NumErr.ErrSyntax ∧
    parseFloat "abc" = .error NumErr.ErrSyntax := by
  refine ⟨?_, ?_, ?_, ?_, ?_, by decide!, by decide!, by decide!, by decide!, by decide!,
    by decide!⟩
  rotate_right
  · intro out q ho hv hq
    apply parseFloat_negative _ q _ hq
    unfold getAudioDuration at hv
    simp only [ho] at hv
    cases hf : parseFloat (trimSpace out) with
    | error e => simp [hf] at hv
    | ok d => simp only [hf, Except.ok.injEq] at hv; rw [hv]
  · unfold getAudioDuration
    cases hp : env.ffprobe audioPath with
    | error e => simp
    | ok out =>
      cases hf : parseFloat (trimSpace out) with
      | error e => simp [hf]
      | ok d => simp [hf]
  · intro e he
    simp [getAudioDuration, he]
  · intro out e ho he
    simp [getAudioDuration, ho, he]
  · intro out d ho hd
    simp [getAudioDuration, ho, hd]

/-- C7 as stated fails: on 49 seconds of audio and three images every encode is given 489
frames (the float64 quotient is just below `49 / 3`, and so is its product with 30), while
`⌊49 / 3 * 30⌋ = 490`. -/
theorem C7_counterexample :
    ¬ (∀ img t f p,
        Event.encode img t f p
          ∈ (createVideoFromAudioAndImages (envProbe "49.000000\n") "a.mp3"
              ["A", "B", "C"] "out.mp4" noFiles).events →
        f = ⌊(49 : ℚ) / 3 * 30⌋) := by
  intro h
  have h3 := h "A" (Float64.fin (4597424619607381 / 2 ^ 48)) 489 "/tmp/segment_0.mp4"
    (by decide!)
  revert h3
  decide!

/-- C7 as amended: with `N ≥ 1` images and a probed duration `0 ≤ D ≤ 2^45` seconds, the
first segment is encoded and every encode is given the same duration `d`, the float64
quotient of `D` by `N`, and the frame count `⌊p⌋`, `p` the float64 product of `d` and 30;
`d` is within a relative `2^-53` (plus `2^-1075`) of `D / N`, so `N` such durations sum to
`D` up to `D / 2^53 + N / 2^1075`; the frame count is within one of `⌊D / N * 30⌋`; for
`D = 9` and `N = 3` these are 3 seconds and 90 frames. -/
theorem C7_equal_split_float_frames (env : Env) (audioPath outputPath : String)
    (imagePaths : List String) (fs : FS) (q : ℚ)
    (hne : imagePaths ≠ []) (hq : 0 ≤ q) (hq2 : q ≤ 2 ^ 45)
    (hprobe : (getAudioDuration env audioPath fs).val = .ok (Float64.fin q)) :
    ∃ d p : ℚ, Float64.round (q / imagePaths.length) = Float64.fin d ∧
      Float64.round (d * 30) = Float64.fin p ∧
      (∃ img, Event.encode img (Float64.fin d) ⌊p⌋ (segmentPath 0)
        ∈ (createVideoFromAudioAndImages env audioPath imagePaths outputPath fs).events) ∧
      (∀ img t f path,
        Event.encode img t f path
          ∈ (createVideoFromAudioAndImages env audioPath imagePaths outputPath fs).events →
        t = Float64.fin d ∧ f = ⌊p⌋) ∧
      |d - q / imagePaths.length| ≤ q / imagePaths.length / 2 ^ 53 + 1 / 2 ^ 1075 ∧
      |(List.replicate imagePaths.length d).sum - q|
        ≤ q / 2 ^ 53 + imagePaths.length / 2 ^ 1075 ∧
      |⌊p⌋ - ⌊q / imagePaths.length * 30⌋| ≤ 1 ∧
      (q = 9 → imagePaths.length = 3 → d = 3 ∧ ⌊p⌋ = 90) := by
  obtain ⟨d, p, hd, hp, hd0, hde, hpx, h1, h2⟩ := run_encode_args_bounded env audioPath
    outputPath imagePaths fs q hne hq hq2 hprobe
  have hN : (0 : ℚ) < imagePaths.length := by
    have : imagePaths.length ≠ 0 := fun h => hne (List.length_eq_zero.mp h)
    exact_mod_cast Nat.pos_of_ne_zero this
  refine ⟨d, p, hd, hp, h1, h2, hde, ?_, (floor_near p _ hpx).2.2, ?_⟩
  · rw [List.sum_replicate, nsmul_eq_mul]
    have e1 : (imagePaths.length : ℚ) * d - q
        = imagePaths.length * (d - q / imagePaths.length) := by
      field_simp
      ring
    have e2 : q / 2 ^ 53 + (imagePaths.length : ℚ) / 2 ^ 1075
        = imagePaths.length * (q / imagePaths.length / 2 ^ 53 + 1 / 2 ^ 1075) := by
      field_simp
      ring
    rw [e1, e2, abs_mul, abs_of_pos hN]
    exact mul_le_mul_of_nonneg_left hde (le_of_lt hN)
  · intro h9 h3
    rw [h9, h3] at hd
    have hd3 : Float64.round ((9 : ℚ) / ((3 : ℕ) : ℚ)) = Float64.fin 3 := by decide!
    rw [hd3] at hd
    injection hd with hd
    subst hd
    have hp90 : Float64.round ((3 : ℚ) * 30) = Float64.fin 90 := by decide!
    rw [hp90] at hp
    injection hp with hp
    subst hp
    exact ⟨rfl, by norm_num⟩

/-- A run on 9 seconds of audio and three images: the hypotheses of C7 as amended hold, and
every encode is given 3 seconds and 90 frames. -/
theorem C7_equal_split_float_frames_witness :
    Event.encode "A" (Float64.fin 3) 90 "/tmp/segment_0.mp4"
      ∈ (createVideoFromAudioAndImages envOk "a.mp3" ["A", "B", "C"] "out.mp4"
          noFiles).events ∧
    ∃ d p : ℚ, (d = 3 ∧ ⌊p⌋ = 90) ∧
      ∀ img t f path,
        Event.encode img t f path
          ∈ (createVideoFromAudioAndImages envOk "a.mp3" ["A", "B", "C"] "out.mp4"
              noFiles).events →
        t = Float64.fin d ∧ f = ⌊p⌋ :=
  ⟨by decide!,
    match C7_equal_split_float_frames envOk "a.mp3" "out.mp4" ["A", "B", "C"] noFiles 9
      (by decide) (by norm_num) (by norm_num) (by decide!) with
    | ⟨d, p, _, _, _, h2, _, _, _, h9⟩ => ⟨d, p, h9 rfl rfl, h2⟩⟩

/-- C8 as stated fails: on 1 second of audio and eight images every encode is given 3
frames, while `1 / 8 * 30 = 3.75` rounds to 4. -/
theorem C8_counterexample :
    ¬ (∀ img t f p,
        Event.encode img t f p
          ∈ (createVideoFromAudioAndImages (envProbe "1.000000\n") "a.mp3"
              ["A", "B", "C", "D", "E", "F", "G", "H"] "out.mp4" noFiles).events →
        f = round ((1 : ℚ) / 8 * 30)) := by
  intro h
  have h3 := h "A" (Float64.fin (1 / 8)) 3 "/tmp/segment_0.mp4" (by decide!)
  revert h3
  decide!

/-- C8 as amended: with `N ≥ 1` images and a probed duration `0 ≤ D ≤ 2^45` seconds, the
frame count of every encode is the float64 product of the float64 quotient `D / N` and 30
with its fractional part dropped; it is the nearest integer of `D / N * 30` or one less,
never more. -/
theorem C8_frames_truncated_not_rounded (env : Env) (audioPath outputPath : String)
    (imagePaths : List String) (fs : FS) (q : ℚ)
    (hne : imagePaths ≠ []) (hq : 0 ≤ q) (hq2 : q ≤ 2 ^ 45)
    (hprobe : (getAudioDuration env audioPath fs).val = .ok (Float64.fin q)) :
    ∀ img t f path,
      Event.encode img t f path
        ∈ (createVideoFromAudioAndImages env audioPath imagePaths outputPath fs).events →
      (∃ d p : ℚ, Float64.round (q / imagePaths.length) = Float64.fin d ∧
        Float64.round (d * 30) = Float64.fin p ∧ f = ⌊p⌋) ∧
      round (q / imagePaths.length * 30) - 1 ≤ f ∧
      f ≤ round (q / imagePaths.length * 30) := by
  intro img t f path h
  obtain ⟨d, p, hd, hp, -, -, hpx, -, h2⟩ := run_encode_args_bounded env audioPath
    outputPath imagePaths fs q hne hq hq2 hprobe
  obtain ⟨-, hf⟩ := h2 img t f path h
  subst hf
  exact ⟨⟨d, p, hd, hp, rfl⟩, (floor_near p _ hpx).1, (floor_near p _ hpx).2.1⟩

/-- Two runs for which the hypotheses of C8 as amended hold and the frame count is one less
than the nearest integer: 1 second and eight images (3 frames, the product is 3.75), and
24.5 seconds and three images (244 frames, the exact product is 245). -/
theorem C8_frames_truncated_not_rounded_witness :
    (round ((1 : ℚ) / (["A", "B", "C", "D", "E", "F", "G", "H"] : List String).length * 30)
        - 1 ≤ 3 ∧
      (3 : ℤ) ≤ round ((1 : ℚ) / (["A", "B", "C", "D", "E", "F", "G", "H"] : List String).length
        * 30)) ∧
    (round ((49 / 2 : ℚ) / (["A", "B", "C"] : List String).length * 30) - 1 ≤ 244 ∧
      (244 : ℤ) ≤ round ((49 / 2 : ℚ) / (["A", "B", "C"] : List String).length * 30)) ∧
    round ((1 : ℚ) / 8 * 30) = 4 ∧ round ((49 / 2 : ℚ) / 3 * 30) = 245 :=
  ⟨(C8_frames_truncated_not_rounded (envProbe "1.000000\n") "a.mp3" "out.mp4"
      ["A", "B", "C", "D", "E", "F", "G", "H"] noFiles 1 (by decide) (by norm_num)
      (by norm_num) (by decide!) "A" (Float64.fin (1 / 8)) 3 "/tmp/segment_0.mp4"
      (by decide!)).2,
    (C8_frames_truncated_not_rounded (envProbe "24.500000\n") "a.mp3" "out.mp4"
      ["A", "B", "C"] noFiles (49 / 2) (by decide) (by norm_num) (by norm_num) (by decide!)
      "A" (Float64.fin (4597424619607381 / 2 ^ 49)) 244 "/tmp/segment_0.mp4"
      (by decide!)).2,
    by decide!, by decide!⟩

/-- C9 (the code does not do this): any two runs that get past the probe, whatever their
audio, images and output, both use the temporary file `/tmp/segment_0.mp4`. -/
theorem C9_runs_share_segment_names (env₁ env₂ : Env) (audio₁ audio₂ out₁ out₂ : String)
    (images₁ images₂ : List String) (fs₁ fs₂ : FS) (D₁ D₂ : Float64)
    (hne₁ : images₁ ≠ []) (hne₂ : images₂ ≠ [])
    (hprobe₁ : (getAudioDuration env₁ audio₁ fs₁).val = .ok D₁)
    (hprobe₂ : (getAudioDuration env₂ audio₂ fs₂).val = .ok D₂) :
    "/tmp/segment_0.mp4"
        ∈ tempNames (createVideoFromAudioAndImages env₁ audio₁ images₁ out₁ fs₁).events ∧
      "/tmp/segment_0.mp4"
        ∈ tempNames (createVideoFromAudioAndImages env₂ audio₂ images₂ out₂ fs₂).events := by
  obtain ⟨a, r₁, rfl⟩ := List.exists_cons_of_ne_nil hne₁
  obtain ⟨b, r₂, rfl⟩ := List.exists_cons_of_ne_nil hne₂
  have h₁ := (run_encode_args env₁ audio₁ out₁ a r₁ fs₁ D₁ hprobe₁).1
  have h₂ := (run_encode_args env₂ audio₂ out₂ b r₂ fs₂ D₂ hprobe₂).1
  exact ⟨List.mem_filterMap.mpr ⟨_, h₁, rfl⟩, List.mem_filterMap.mpr ⟨_, h₂, rfl⟩⟩

/-- Two different jobs, one that succeeds and one whose merge fails: the hypotheses of C9
hold, and both also use the manifest `/tmp/video_concat.txt`. -/
theorem C9_runs_share_segment_names_witness :
    ("/tmp/segment_0.mp4"
        ∈ tempNames (createVideoFromAudioAndImages envOk "a.mp3" ["A", "B"] "out1.mp4"
            noFiles).events ∧
      "/tmp/segment_0.mp4"
        ∈ tempNames (createVideoFromAudioAndImages envMergeFails "b.mp3" ["C"] "out2.mp4"
            noFiles).events) ∧
    "/tmp/video_concat.txt"
        ∈ tempNames (createVideoFromAudioAndImages envOk "a.mp3" ["A", "B"] "out1.mp4"
            noFiles).events ∧
    "/tmp/video_concat.txt"
        ∈ tempNames (createVideoFromAudioAndImages envMergeFails "b.mp3" ["C"] "out2.mp4"
            noFiles).events :=
  ⟨C9_runs_share_segment_names envOk envMergeFails "a.mp3" "b.mp3" "out1.mp4" "out2.mp4"
      ["A", "B"] ["C"] noFiles noFiles (Float64.fin 9) (Float64.fin 9) (by decide) (by decide)
      (by decide!) (by decide!),
    by decide!, by decide!⟩

/-- C10 as stated fails: on audio of duration 0 and one image the job is not rejected (the
result is `nil`, and an encode runs), and that encode is given 0 frames. -/
theorem C10_counterexample :
    ¬ (((createVideoFromAudioAndImages (envProbe "0.000000\n") "a.mp3" ["A"] "out.mp4"
            noFiles).val.isSome ∧
          ∀ e ∈ (createVideoFromAudioAndImages (envProbe "0.000000\n") "a.mp3" ["A"]
              "out.mp4" noFiles).events, e.isEncode = false) ∨
        ∀ img t f p,
          Event.encode img t f p
            ∈ (createVideoFromAudioAndImages (envProbe "0.000000\n") "a.mp3" ["A"]
                "out.mp4" noFiles).events →
          1 ≤ f) := by
  have hmem : Event.encode "A" (Float64.fin 0) 0 "/tmp/segment_0.mp4"
      ∈ (createVideoFromAudioAndImages (envProbe "0.000000\n") "a.mp3" ["A"] "out.mp4"
          noFiles).events := by decide!
  rintro (⟨-, h⟩ | h)
  · exact absurd (h _ hmem) (by simp [Event.isEncode])
  · exact absurd (h _ _ _ _ hmem) (by decide)

/-- C10 as amended: with `N ≥ 1` images and a probed duration of exactly 0, the divisor
`float64(N)` is not zero, the job is not rejected before encoding (the first image is
encoded), and every encode is given the duration 0 and the frame count 0. -/
theorem C10_zero_duration_zero_frames (env : Env) (audioPath outputPath : String)
    (imagePaths : List String) (fs : FS)
    (hne : imagePaths ≠ [])
    (hprobe : (getAudioDuration env audioPath fs).val = .ok (Float64.fin 0)) :
    Float64.ofNat imagePaths.length ≠ Float64.fin 0 ∧
    (∃ img, Event.encode img (Float64.fin 0) 0 (segmentPath 0)
      ∈ (createVideoFromAudioAndImages env audioPath imagePaths outputPath fs).events) ∧
    (∀ img t f p,
      Event.encode img t f p
        ∈ (createVideoFromAudioAndImages env audioPath imagePaths outputPath fs).events →
      t = Float64.fin 0 ∧ f = 0) := by
  obtain ⟨img0, rest, rfl⟩ := List.exists_cons_of_ne_nil hne
  obtain ⟨h1, h2⟩ := run_encode_args env audioPath outputPath img0 rest fs (Float64.fin 0)
    hprobe
  have hN : ((img0 :: rest).length : ℚ) ≠ 0 := by
    simp only [List.length_cons]; positivity
  have ht : (Float64.fin 0).div (Float64.ofNat (img0 :: rest).length) = Float64.fin 0 := by
    simp only [Float64.div, Float64.ofNat, hN, if_false, zero_div]
    exact round_zero
  have hf : ((Float64.fin 0).mul (Float64.fin 30)).toInt env.intOutOfRange = 0 := by
    simp only [Float64.mul, zero_mul, round_zero]
    simp [Float64.toInt, Float64.truncQ]
  rw [ht, hf] at h1 h2
  refine ⟨?_, ⟨img0, h1⟩, h2⟩
  intro h0
  simp only [Float64.ofNat, Float64.fin.injEq] at h0
  exact hN h0

/-- A run on audio of duration 0 and two images: the hypotheses of C10 as amended hold and
the first image is encoded with duration 0 and 0 frames. -/
theorem C10_zero_duration_zero_frames_witness :
    ∃ img, Event.encode img (Float64.fin 0) 0 (segmentPath 0)
      ∈ (createVideoFromAudioAndImages (envProbe "0.000000\n") "a.mp3" ["A", "B"] "out.mp4"
          noFiles).events :=
  (C10_zero_duration_zero_frames (envProbe "0.000000\n") "a.mp3" "out.mp4" ["A", "B"]
    noFiles (by decide) (by decide!)).2.1

end FfmpegGo
